import Mathlib

/-!
# Verification of the feather per-connection framing pipeline

Shallow embedding of `src/core/src/network/serialize.rs`
(`ConnectionIOManager`): the duplex framer that turns a raw byte stream
into decoded packets (`accept_data`) and packets into wire bytes
(`serialize_packet`), with optional AES-128/CFB8 encryption and
threshold-gated zlib compression.

Bytes are modelled as `Nat` (values < 256 where it matters), buffers as
`List Nat` holding the *unread* content of the Rust `ByteBuf` (its
`advance`/`remove_prior` calls become `List.drop`).  The collaborators
that are not part of the repository sources under `src/` — the VarInt
codec (`mctypes.rs`), the packet registry and codecs, the zlib adapter
and the AES block function — are modelled from the spec and passed in as
parameters where appropriate.
-/

namespace Feather

/-! ## 32-bit integer casts

Rust `as i32` / `as u32` casts used by the source. -/

/-- Interpret a natural number as a Rust `i32` (truncate to 32 bits, then
two's-complement). Models `as i32` on unsigned values. -/
def i32ofNat (n : Nat) : Int :=
  let m := n % 4294967296
  if m < 2147483648 then (m : Int) else (m : Int) - 4294967296

/-- Reinterpret an `i32` value as a `u32` (models `as u32` / `as usize`
on a non-negative-width cast). -/
def toU32 (v : Int) : Nat := (v % 4294967296).toNat

/-! ## VarInt codec

Modelled from the spec: the repository's VarInt reader/writer lives in
`mctypes.rs`, which is not under `src/`. Per spec §4.1: a VarInt encodes
a 32-bit signed integer in 1–5 bytes, little-endian, 7 payload bits per
byte with the high bit as continuation flag; after 5 bytes without a
terminator the read fails with `MalformedFrame`; on insufficient input
it fails with `Incomplete` (recoverable). -/

inductive VErr
  | incomplete
  | malformed
deriving DecidableEq, Repr

/-- Read loop: `numRead` bytes consumed so far, `acc` the accumulated
unsigned value. -/
def readVarIntLoop : List Nat → Nat → Nat → Except VErr (Nat × List Nat)
  | [], _, _ => .error .incomplete
  | b :: rest, numRead, acc =>
    let acc' := acc + (b % 128) * 2 ^ (7 * numRead)
    if b % 256 < 128 then .ok (acc', rest)
    else if 5 ≤ numRead + 1 then .error .malformed
    else readVarIntLoop rest (numRead + 1) acc'

/-- Read a VarInt as an `i32`, returning the value and the unconsumed
rest of the buffer. -/
def read_var_int (bs : List Nat) : Except VErr (Int × List Nat) :=
  match readVarIntLoop bs 0 0 with
  | .ok (v, rest) => .ok (i32ofNat v, rest)
  | .error e => .error e

/-- Write loop over the `u32` image of the value; fuel 5 suffices for
any `u32`. -/
def writeVarIntLoop : Nat → Nat → List Nat
  | 0, _ => []
  | fuel + 1, u => if u < 128 then [u] else (u % 128 + 128) :: writeVarIntLoop fuel (u / 128)

/-- Write a VarInt for an `i32` value (encoded via its `u32` image). -/
def write_var_int (v : Int) : List Nat := writeVarIntLoop 5 (toU32 v)

/-! ## Protocol data model

Modelled from the spec: the packet layer (`packet.rs` and the packet
implementations) is not under `src/`; the framer consumes it through the
collaborator capability set of spec §6 (`type_id`, `parse_from`,
`write_to`, registry lookup). -/

inductive PacketStage
  | Handshake
  | Status
  | Login
  | Play
deriving DecidableEq, Repr

inductive PacketDirection
  | Serverbound
  | Clientbound
deriving DecidableEq, Repr

/-- Modelled from the spec: the `next_state` field of a successfully
parsed Handshake packet (spec §4.6.1 step i: only 1 → Status and
2 → Login parse). -/
inductive HandshakeState
  | Status
  | Login
deriving DecidableEq, Repr

/-- Modelled from the spec: the packet-collaborator capability set of
spec §6, consumed by the framer: `packet.ty()`, registry lookup
`PacketType::get_from_id`, `ty.get_id()`, `ty.get_implementation()`,
`packet.read_from(bytes)`, `packet.write_to(buf)`, and the Handshake /
LoginSuccess type tests with the Handshake `next_state` accessor. -/
structure Proto (Pk Ty : Type) where
  ty : Pk → Ty
  get_from_id : Nat → PacketDirection → PacketStage → Option Ty
  get_id : Ty → Nat
  get_implementation : Ty → Pk
  read_from : Pk → List Nat → Option Pk
  write_to : Pk → List Nat
  isHandshake : Ty → Bool
  isLoginSuccess : Ty → Bool
  next_state : Pk → HandshakeState

/-- Modelled from the spec: AES-128/CFB8 stream-cipher state of the
external `cfb8` crate (spec §4.3): a key plus an internal shift
register; `new_var(key, iv)` seeds the register with the IV. -/
structure Cfb8State where
  key : List Nat
  register : List Nat
deriving DecidableEq, Repr

/-- Models `AesCfb8::new_var(&key, &iv).unwrap()`. -/
def cfb8_new_var (key iv : List Nat) : Cfb8State := ⟨key, iv⟩

/-- One CFB8 encryption step, parameterised by the AES block function
`aes` (key → register → keystream byte). -/
def cfb8EncryptByte (aes : List Nat → List Nat → Nat) (c : Cfb8State) (p : Nat) :
    Cfb8State × Nat :=
  let ct := Nat.xor (p % 256) (aes c.key c.register % 256)
  ({ c with register := c.register.drop 1 ++ [ct] }, ct)

/-- One CFB8 decryption step. -/
def cfb8DecryptByte (aes : List Nat → List Nat → Nat) (c : Cfb8State) (ct : Nat) :
    Cfb8State × Nat :=
  let pt := Nat.xor (ct % 256) (aes c.key c.register % 256)
  ({ c with register := c.register.drop 1 ++ [ct % 256] }, pt)

/-- Run a byte-wise cipher step over a buffer (in-place encryption /
decryption of a slice). -/
def cfb8Run (step : Cfb8State → Nat → Cfb8State × Nat) :
    Cfb8State → List Nat → Cfb8State × List Nat
  | c, [] => (c, [])
  | c, b :: bs =>
    let r := step c b
    let rs := cfb8Run step r.1 bs
    (rs.1, r.2 :: rs.2)

/-! ## The framer state (`ConnectionIOManager`, serialize.rs lines 18–56)

The two `ByteBuf`s are modelled by their unread content: `advance` and
`remove_prior` become `List.drop`, `mark`/`reset` become keeping the
pre-read list. -/

structure ConnectionIOManager (Pk : Type) where
  encryption_enabled : Bool
  encryption_key : List Nat
  compression_enabled : Bool
  compression_threshold : Nat
  pending_received_packets : List Pk
  incoming_compressed : List Nat
  incoming_uncompressed : List Nat
  encrypter : Option Cfb8State
  decrypter : Option Cfb8State
  stage : PacketStage
  direction : PacketDirection

namespace ConnectionIOManager

variable {Pk Ty : Type}

/-- `ConnectionIOManager::new` (lines 38–56). -/
def new (direction : PacketDirection) : ConnectionIOManager Pk :=
  { encryption_enabled := false
    encryption_key := List.replicate 16 0
    compression_enabled := false
    compression_threshold := 0
    pending_received_packets := []
    incoming_compressed := []
    incoming_uncompressed := []
    encrypter := none
    decrypter := none
    stage := .Handshake
    direction := direction }

/-- `set_stage` (lines 58–60). -/
def set_stage (m : ConnectionIOManager Pk) (stage : PacketStage) : ConnectionIOManager Pk :=
  { m with stage := stage }

/-- `enable_encryption` (lines 62–70). -/
def enable_encryption (m : ConnectionIOManager Pk) (key : List Nat) :
    ConnectionIOManager Pk :=
  { m with
    encryption_enabled := true
    encryption_key := key
    encrypter := some (cfb8_new_var key key)
    decrypter := some (cfb8_new_var key key) }

/-- `enable_compression` (lines 72–77). -/
def enable_compression (m : ConnectionIOManager Pk) (threshold : Nat) :
    ConnectionIOManager Pk :=
  { m with compression_enabled := true, compression_threshold := threshold }

/-- `take_pending_packets` (lines 269–271). -/
def take_pending_packets (m : ConnectionIOManager Pk) :
    List Pk × ConnectionIOManager Pk :=
  (m.pending_received_packets, { m with pending_received_packets := [] })

/-- `decompress_data` (lines 254–267).  The zlib inflater of the
external `flate2` crate is a parameter `inflate`, returning the inflated
output and the number of source bytes consumed (`none` models a zlib
error, which the source `unwrap`s into a panic).  Note the source never
compares the inflated length with `uncompressed_size`. -/
def decompress_data (inflate : List Nat → Option (List Nat × Nat))
    (uncompressed_size : Int) (m : ConnectionIOManager Pk) :
    Option (ConnectionIOManager Pk) :=
  match inflate m.incoming_compressed with
  | none => none
  | some r =>
    some { m with
      incoming_uncompressed :=
        (if uncompressed_size = 0 then m.incoming_uncompressed ++ m.incoming_compressed
         else m.incoming_uncompressed) ++ r.1
      incoming_compressed := m.incoming_compressed.drop r.2 }

/-- Outcome of one iteration of the `accept_data` loop. -/
inductive IterResult (Pk : Type)
  | stop (m : ConnectionIOManager Pk)
  | halt (m : ConnectionIOManager Pk)
  | crash (m : ConnectionIOManager Pk)
  | next (m : ConnectionIOManager Pk)

/-- Lines 171–182 of `accept_data`: the Handshake stage transition
applied after a packet parses. -/
def stage_after (P : Proto Pk Ty) (packet : Pk) (st : PacketStage) : PacketStage :=
  if P.isHandshake (P.ty packet) then
    match P.next_state packet with
    | .Login => PacketStage.Login
    | .Status => PacketStage.Status
  else st

/-- Line 162–164: `packet_length as usize - (read_pos - marked) -
len_of_compressed_size_field`, computed in `Int` so that the Rust
`usize` underflow / out-of-range cases are visible as negative values
(which the caller turns into a crash, as Rust would panic). -/
def upper_index (packet_length : Int) (consumed len_field : Nat) : Int :=
  packet_length - consumed - len_field

/-- Lines 142–186 of `accept_data`: after the frame body has been moved
into `incoming_uncompressed`, read the packet id, look it up, parse the
payload from the next `upper_index` bytes, apply the Handshake stage
transition and push the packet.  `packet_length` is the (possibly
reassigned, line 121) frame length and `len_field` the length of the
`uncompressed_size` VarInt consumed from the body (lines 117–138). -/
def accept_body (P : Proto Pk Ty) (m : ConnectionIOManager Pk)
    (packet_length : Int) (len_field : Nat) : IterResult Pk :=
  match read_var_int m.incoming_uncompressed with
  | .error _ => .halt m
  | .ok pr =>
    match P.get_from_id (toU32 pr.1) m.direction m.stage with
    | none => .halt { m with incoming_uncompressed := pr.2 }
    | some pty =>
      if 0 ≤ upper_index packet_length (m.incoming_uncompressed.length - pr.2.length) len_field ∧
          (upper_index packet_length (m.incoming_uncompressed.length - pr.2.length)
            len_field).toNat ≤ pr.2.length then
        match P.read_from (P.get_implementation pty)
            (pr.2.take (upper_index packet_length
              (m.incoming_uncompressed.length - pr.2.length) len_field).toNat) with
        | none => .halt { m with incoming_uncompressed := pr.2 }
        | some packet =>
          .next { m with
            incoming_uncompressed := pr.2.drop (upper_index packet_length
              (m.incoming_uncompressed.length - pr.2.length) len_field).toNat
            stage := stage_after P packet m.stage
            pending_received_packets := m.pending_received_packets ++ [packet] }
      else .crash m

/-- One iteration of the `loop` in `accept_data` (lines 90–187): read
the frame-length VarInt (reset and stop on any failure), check the full
frame is buffered, then dechunk/decompress the body and hand it to
`accept_body`. -/
def accept_iter (P : Proto Pk Ty) (inflate : List Nat → Option (List Nat × Nat))
    (m : ConnectionIOManager Pk) : IterResult Pk :=
  match read_var_int m.incoming_compressed with
  | .error _ => .stop m
  | .ok lr =>
    if i32ofNat lr.2.length < lr.1 then .stop m
    else
      if m.compression_enabled then
        match read_var_int lr.2 with
        | .error _ => .halt m
        | .ok ur =>
          if ur.1 ≠ 0 then
            match decompress_data inflate ur.1 { m with incoming_compressed := ur.2 } with
            | none => .crash m
            | some m' => accept_body P m' ur.1 0
          else
            if 0 ≤ lr.1 - 1 ∧ (lr.1 - 1).toNat ≤ ur.2.length then
              accept_body P
                { m with
                  incoming_uncompressed := m.incoming_uncompressed ++ ur.2.take (lr.1 - 1).toNat
                  incoming_compressed := ur.2.drop (lr.1 - 1).toNat }
                lr.1 (lr.2.length - ur.2.length)
            else .crash m
      else
        if 0 ≤ lr.1 ∧ lr.1.toNat ≤ lr.2.length then
          accept_body P
            { m with
              incoming_uncompressed := m.incoming_uncompressed ++ lr.2.take lr.1.toNat
              incoming_compressed := lr.2.drop lr.1.toNat }
            lr.1 0
        else .crash m

/-- Caller-visible outcome of `accept_data` (Rust `Result<(), ()>`,
with `crash` marking inputs on which the Rust code would panic). -/
inductive AStatus
  | ok
  | err
  | crash
deriving DecidableEq, Repr

/-- The `loop` of `accept_data` (lines 90–187), iterating `accept_iter`
until the buffer lacks a complete frame (`Ok`), a fatal error is hit
(`Err`), or a panic occurs.  The loop is written with explicit fuel;
since every `next` iteration strictly consumes `incoming_compressed`
(`accept_iter_next_shrinks`), any fuel exceeding the buffer length is
never exhausted (`accept_loop_fuel_irrelevant`), so the fuel-exhaustion
branch is unreachable at the call site in `accept_data`. -/
def accept_loop (P : Proto Pk Ty) (inflate : List Nat → Option (List Nat × Nat)) :
    Nat → ConnectionIOManager Pk → ConnectionIOManager Pk × AStatus
  | 0, m => (m, .ok)
  | fuel + 1, m =>
    match accept_iter P inflate m with
    | .stop m' => (m', .ok)
    | .halt m' => (m', .err)
    | .crash m' => (m', .crash)
    | .next m' => accept_loop P inflate fuel m'

/-- `accept_data` (lines 82–190): decrypt the chunk if encryption is
enabled, append it to `incoming_compressed`, then run the framing
loop. -/
def accept_data (P : Proto Pk Ty) (aes : List Nat → List Nat → Nat)
    (inflate : List Nat → Option (List Nat × Nat))
    (m : ConnectionIOManager Pk) (data : List Nat) :
    ConnectionIOManager Pk × AStatus :=
  if m.encryption_enabled then
    match m.decrypter with
    | none => (m, .crash)
    | some c =>
      accept_loop P inflate
        (m.incoming_compressed.length + (cfb8Run (cfb8DecryptByte aes) c data).2.length + 1)
        { m with
          decrypter := some (cfb8Run (cfb8DecryptByte aes) c data).1
          incoming_compressed :=
            m.incoming_compressed ++ (cfb8Run (cfb8DecryptByte aes) c data).2 }
  else
    accept_loop P inflate (m.incoming_compressed.length + data.length + 1)
      { m with incoming_compressed := m.incoming_compressed ++ data }

/-- `compress_data` (lines 244–252): append the zlib-deflate of `data`
to the output buffer.  The zlib encoder of the external `flate2` crate
is the parameter `deflate`. -/
def compress_data (deflate : List Nat → List Nat) (data output : List Nat) : List Nat :=
  output ++ deflate data

/-- `serialize_packet` (lines 192–232).  Returns the updated manager and
the emitted frame; `none` models the `unwrap` panic when encryption is
flagged on without a cipher (unreachable through the public API). -/
def serialize_packet (P : Proto Pk Ty) (aes : List Nat → List Nat → Nat)
    (deflate : List Nat → List Nat) (m : ConnectionIOManager Pk) (packet : Pk) :
    Option (ConnectionIOManager Pk × List Nat) :=
  let m0 := if P.isLoginSuccess (P.ty packet) then { m with stage := PacketStage.Play } else m
  let packet_data := write_var_int (i32ofNat (P.get_id (P.ty packet))) ++ P.write_to packet
  let buf_without_length :=
    if m0.compression_enabled then
      if packet_data.length < m0.compression_threshold then
        write_var_int 0 ++ packet_data
      else
        compress_data deflate packet_data (write_var_int (i32ofNat packet_data.length))
    else packet_data
  let frame := write_var_int (i32ofNat buf_without_length.length) ++ buf_without_length
  if m0.encryption_enabled then
    match m0.encrypter with
    | none => none
    | some c =>
      some ({ m0 with encrypter := some (cfb8Run (cfb8EncryptByte aes) c frame).1 },
        (cfb8Run (cfb8EncryptByte aes) c frame).2)
  else some (m0, frame)

/-- Feed a list of chunks one `accept_data` call at a time, stopping at
the first non-`Ok` status (the caller must drop the connection). -/
def feed_all (P : Proto Pk Ty) (aes : List Nat → List Nat → Nat)
    (inflate : List Nat → Option (List Nat × Nat))
    (m : ConnectionIOManager Pk) : List (List Nat) → ConnectionIOManager Pk × AStatus
  | [] => (m, .ok)
  | c :: cs =>
    match accept_data P aes inflate m c with
    | (m', .ok) => feed_all P aes inflate m' cs
    | (m', s) => (m', s)

end ConnectionIOManager

/-! ## A concrete protocol instance

Modelled from the spec: the packet implementations live outside `src/`;
this is a minimal concrete instance of the collaborator capability set
covering the packets the spec's scenarios use (S1: Handshake and
StatusRequest; LoginSuccess for the egress stage transition; a generic
`blob` packet whose payload is an opaque byte string). -/

/-- Modelled from the spec (S1, §6): the Handshake packet's fields —
protocol version VarInt, length-prefixed server address, big-endian
`u16` port, and `next_state` VarInt where only 1 (Status) and
2 (Login) parse. -/
structure Handshake where
  protocol_version : Int
  server_address : List Nat
  server_port : Nat
  next_state : HandshakeState
deriving DecidableEq, Repr

/-- Payload bytes of a Handshake with a raw `next_state` VarInt value
`ns` (spec S1 byte layout). -/
def handshake_payload (pv : Int) (addr : List Nat) (port : Nat) (ns : Int) : List Nat :=
  write_var_int pv ++ write_var_int (i32ofNat addr.length) ++ addr ++
    [port / 256 % 256, port % 256] ++ write_var_int ns

/-- Modelled from the spec: parse a Handshake payload; `next_state`
values other than 1 and 2 are rejected (spec §4.6.1 step i). -/
def read_handshake (bs : List Nat) : Option Handshake :=
  match read_var_int bs with
  | .error _ => none
  | .ok pv =>
    match read_var_int pv.2 with
    | .error _ => none
    | .ok al =>
      if 0 ≤ al.1 ∧ al.1.toNat ≤ al.2.length then
        match al.2.drop al.1.toNat with
        | hi :: lo :: r3 =>
          match read_var_int r3 with
          | .error _ => none
          | .ok ns =>
            if ns.1 = 1 then
              some ⟨pv.1, al.2.take al.1.toNat, hi * 256 + lo, HandshakeState.Status⟩
            else if ns.1 = 2 then
              some ⟨pv.1, al.2.take al.1.toNat, hi * 256 + lo, HandshakeState.Login⟩
            else none
        | _ => none
      else none

/-- Writer for a Handshake (used to build frames for the mirror
round-trip). -/
def write_handshake (h : Handshake) : List Nat :=
  handshake_payload h.protocol_version h.server_address h.server_port
    (match h.next_state with
     | HandshakeState.Status => 1
     | HandshakeState.Login => 2)

/-- Packet types of the concrete instance. -/
inductive MTy
  | handshake
  | statusRequest
  | loginSuccess
  | blob (id : Nat)
deriving DecidableEq, Repr

/-- Packets of the concrete instance. -/
inductive MPkt
  | handshake (h : Handshake)
  | statusRequest
  | loginSuccess
  | blob (id : Nat) (payload : List Nat)
deriving DecidableEq, Repr

def MPkt.ty : MPkt → MTy
  | .handshake _ => .handshake
  | .statusRequest => .statusRequest
  | .loginSuccess => .loginSuccess
  | .blob i _ => .blob i

/-- Modelled from the spec: the fragment of the `(stage, direction, id)`
registry the scenarios use — Handshake is id 0 serverbound in the
Handshake stage, StatusRequest id 0 serverbound in Status, LoginSuccess
id 2 clientbound in Login; `blob` packets occupy serverbound Play ids
0–10 (ids above 10 are unknown, giving a registry miss). -/
def specLookup : Nat → PacketDirection → PacketStage → Option MTy
  | i, .Serverbound, .Handshake => if i = 0 then some .handshake else none
  | i, .Serverbound, .Status => if i = 0 then some .statusRequest else none
  | i, .Serverbound, .Play => if i ≤ 10 then some (.blob i) else none
  | i, .Clientbound, .Login => if i = 2 then some .loginSuccess else none
  | _, _, _ => none

def specProto : Proto MPkt MTy where
  ty := MPkt.ty
  get_from_id := specLookup
  get_id
    | .handshake => 0
    | .statusRequest => 0
    | .loginSuccess => 2
    | .blob i => i
  get_implementation
    | .handshake => .handshake ⟨0, [], 0, HandshakeState.Status⟩
    | .statusRequest => .statusRequest
    | .loginSuccess => .loginSuccess
    | .blob i => .blob i []
  read_from self bytes :=
    match self with
    | .handshake _ => (read_handshake bytes).map MPkt.handshake
    | .statusRequest => some .statusRequest
    | .loginSuccess => some .loginSuccess
    | .blob i _ => some (.blob i bytes)
  write_to
    | .handshake h => write_handshake h
    | .statusRequest => []
    | .loginSuccess => []
    | .blob _ payload => payload
  isHandshake ty := ty = .handshake
  isLoginSuccess ty := ty = .loginSuccess
  next_state
    | .handshake h => h.next_state
    | _ => HandshakeState.Status

/-- Trivial stand-ins for the external AES block function and zlib
codec, used to instantiate witnesses (the identity "compression" with a
self-delimiting one-byte header is irrelevant to the framing logic
being exercised). -/
def idAes : List Nat → List Nat → Nat := fun _ _ => 0

/-- A concrete zlib stand-in for witnesses: `idDeflate` prefixes the
payload with its length as a VarInt, and `idInflate` reads it back,
consuming exactly the stream it needs. -/
def idDeflate (data : List Nat) : List Nat :=
  write_var_int (i32ofNat data.length) ++ data

def idInflate (src : List Nat) : Option (List Nat × Nat) :=
  match read_var_int src with
  | .error _ => none
  | .ok r =>
    if 0 ≤ r.1 ∧ r.1.toNat ≤ r.2.length then
      some (r.2.take r.1.toNat, (src.length - r.2.length) + r.1.toNat)
    else none

namespace ConnectionIOManager

variable {Pk Ty : Type}

/-- A well-formed wire frame in the sense of spec §6, for the current
compression regime: a frame-length VarInt followed by the body — the
encoded packet directly (compression off), or `varint(0) ∥ body`
(literal envelope), or `varint(uncompressed_len) ∥ deflated-bytes` where
the inflater yields exactly the declared body consuming exactly the
deflated bytes.  The packet id must be registered at the current stage
and the payload must parse. -/
inductive FrameOk (P : Proto Pk Ty) (inflate : List Nat → Option (List Nat × Nat))
    (dir : PacketDirection) : Bool → PacketStage → List Nat → Pk → PacketStage → Prop
  | uncompressed {st : PacketStage} {v : Int} {payload : List Nat} {pty : Ty} {pkt : Pk}
      (hv1 : -2147483648 ≤ v) (hv2 : v < 2147483648)
      (hlen : (write_var_int v ++ payload).length < 2147483648)
      (hlook : P.get_from_id (toU32 v) dir st = some pty)
      (hparse : P.read_from (P.get_implementation pty) payload = some pkt) :
      FrameOk P inflate dir false st
        (write_var_int (i32ofNat (write_var_int v ++ payload).length) ++
          (write_var_int v ++ payload))
        pkt (stage_after P pkt st)
  | literal {st : PacketStage} {v : Int} {payload : List Nat} {pty : Ty} {pkt : Pk}
      (hv1 : -2147483648 ≤ v) (hv2 : v < 2147483648)
      (hlen : (write_var_int 0 ++ (write_var_int v ++ payload)).length < 2147483648)
      (hlook : P.get_from_id (toU32 v) dir st = some pty)
      (hparse : P.read_from (P.get_implementation pty) payload = some pkt) :
      FrameOk P inflate dir true st
        (write_var_int (i32ofNat (write_var_int 0 ++ (write_var_int v ++ payload)).length) ++
          (write_var_int 0 ++ (write_var_int v ++ payload)))
        pkt (stage_after P pkt st)
  | deflated {st : PacketStage} {v : Int} {payload : List Nat} {pty : Ty} {pkt : Pk}
      (comp_bytes : List Nat)
      (hv1 : -2147483648 ≤ v) (hv2 : v < 2147483648)
      (hraw : (write_var_int v ++ payload).length < 2147483648)
      (hlen : (write_var_int (i32ofNat (write_var_int v ++ payload).length) ++
        comp_bytes).length < 2147483648)
      (hinfl : ∀ t, inflate (comp_bytes ++ t) =
        some (write_var_int v ++ payload, comp_bytes.length))
      (hlook : P.get_from_id (toU32 v) dir st = some pty)
      (hparse : P.read_from (P.get_implementation pty) payload = some pkt) :
      FrameOk P inflate dir true st
        (write_var_int (i32ofNat (write_var_int (i32ofNat (write_var_int v ++
            payload).length) ++ comp_bytes).length) ++
          (write_var_int (i32ofNat (write_var_int v ++ payload).length) ++ comp_bytes))
        pkt (stage_after P pkt st)

/-- A well-formed encoded stream: a sequence of well-formed frames, the
stage evolving with each decoded packet (a decoded Handshake switches
the registry used for the following frames). -/
inductive Frames (P : Proto Pk Ty) (inflate : List Nat → Option (List Nat × Nat))
    (dir : PacketDirection) (comp : Bool) :
    PacketStage → List Nat → List Pk → PacketStage → Prop
  | nil (st : PacketStage) : Frames P inflate dir comp st [] [] st
  | cons {st st₁ st₂ : PacketStage} {fr S : List Nat} {pkt : Pk} {pkts : List Pk} :
      FrameOk P inflate dir comp st fr pkt st₁ →
      Frames P inflate dir comp st₁ S pkts st₂ →
      Frames P inflate dir comp st (fr ++ S) (pkt :: pkts) st₂

/-- The encoded packet body: `varint(packet_id) ∥ payload`
(serialize_packet line 199–201). -/
def serialize_body (P : Proto Pk Ty) (packet : Pk) : List Nat :=
  write_var_int (i32ofNat (P.get_id (P.ty packet))) ++ P.write_to packet

/-- The compression envelope built by `serialize_packet` (lines
205–221): the body itself with compression off; `varint(0) ∥ body`
below the threshold; `varint(len body) ∥ deflate(body)` otherwise. -/
def serialize_envelope (P : Proto Pk Ty) (deflate : List Nat → List Nat)
    (m : ConnectionIOManager Pk) (packet : Pk) : List Nat :=
  if m.compression_enabled then
    if (serialize_body P packet).length < m.compression_threshold then
      write_var_int 0 ++ serialize_body P packet
    else
      write_var_int (i32ofNat (serialize_body P packet).length) ++
        deflate (serialize_body P packet)
  else serialize_body P packet

/-- The manager state carried by an iteration outcome. -/
def IterResult.state : IterResult Pk → ConnectionIOManager Pk
  | .stop m => m
  | .halt m => m
  | .crash m => m
  | .next m => m

end ConnectionIOManager

/-! ## Operation sequences over a framer (for the stage-transition
invariant) -/

/-- The public operations of the framer (spec §6). -/
inductive Op (Pk : Type)
  | set_stage (s : PacketStage)
  | accept (data : List Nat)
  | serialize (p : Pk)
  | enable_encryption (key : List Nat)
  | enable_compression (threshold : Nat)

/-- Apply one operation to the framer state (dropping outputs; a
`serialize_packet` panic leaves the state unobservable, modelled as
unchanged). -/
def apply_op {Pk Ty : Type} (P : Proto Pk Ty) (aes : List Nat → List Nat → Nat)
    (inflate : List Nat → Option (List Nat × Nat)) (deflate : List Nat → List Nat)
    (m : ConnectionIOManager Pk) : Op Pk → ConnectionIOManager Pk
  | .set_stage s => m.set_stage s
  | .accept data => (ConnectionIOManager.accept_data P aes inflate m data).1
  | .serialize p =>
    match ConnectionIOManager.serialize_packet P aes deflate m p with
    | some r => r.1
    | none => m
  | .enable_encryption key => m.enable_encryption key
  | .enable_compression t => m.enable_compression t

/-- The stage transitions the spec's diagram (§4.6.4) allows:
stay put, Handshake → Status/Login, or Login → Play. -/
def allowed_stage_step (s s' : PacketStage) : Prop :=
  s' = s ∨ (s = PacketStage.Handshake ∧
    (s' = PacketStage.Status ∨ s' = PacketStage.Login)) ∨
  (s = PacketStage.Login ∧ s' = PacketStage.Play)

/-- Every step of an operation sequence takes an allowed stage
transition (the formalization of claim C8 as stated). -/
def stage_chain {Pk Ty : Type} (P : Proto Pk Ty) (aes : List Nat → List Nat → Nat)
    (inflate : List Nat → Option (List Nat × Nat)) (deflate : List Nat → List Nat) :
    ConnectionIOManager Pk → List (Op Pk) → Prop
  | _, [] => True
  | m, op :: rest =>
    allowed_stage_step m.stage (apply_op P aes inflate deflate m op).stage ∧
    stage_chain P aes inflate deflate (apply_op P aes inflate deflate m op) rest

/-! ## Concrete data for counterexamples and witnesses -/

/-- The bytes of `"localhost"` (spec scenario S1). -/
def lhAddr : List Nat := [108, 111, 99, 97, 108, 104, 111, 115, 116]

/-- An uncompressed Handshake frame (id 0) with protocol 754, address
"localhost", port 25565 and a raw `next_state` VarInt `ns`. -/
def handshake_frame (ns : Int) : List Nat :=
  write_var_int (i32ofNat (write_var_int 0 ++
      handshake_payload 754 lhAddr 25565 ns).length) ++
    (write_var_int 0 ++ handshake_payload 754 lhAddr 25565 ns)

/-- An inflater that yields three bytes while one frame declares an
uncompressed size of 2 (for the C4 counterexample). -/
def c4Inflate : List Nat → Option (List Nat × Nat) := fun src => some ([1, 7, 8], src.length)

/-- An inflater that yields five bytes while the frame declares an
uncompressed size of 2 (for the C5 counterexample). -/
def c5Inflate : List Nat → Option (List Nat × Nat) :=
  fun src => some ([0, 7, 8, 9, 10], src.length)

/-- A compression-enabled framer in the Play stage (counterexamples for
C4 and C5). -/
def playCompressedMgr : ConnectionIOManager MPkt :=
  ConnectionIOManager.enable_compression
    (ConnectionIOManager.set_stage
      (ConnectionIOManager.new PacketDirection.Serverbound) PacketStage.Play) 100

/-- A fresh serverbound framer moved to the Play stage (C9 witness). -/
def playMgr : ConnectionIOManager MPkt :=
  ConnectionIOManager.set_stage
    (ConnectionIOManager.new PacketDirection.Serverbound) PacketStage.Play

/-- A protocol whose registry never misses and whose payload parser
always succeeds, for exhibiting `accept_data` error returns that come
from neither a registry miss nor a payload parse failure. -/
def totalProto : Proto Unit Unit where
  ty _ := ()
  get_from_id _ _ _ := some ()
  get_id _ := 0
  get_implementation _ := ()
  read_from _ _ := some ()
  write_to _ := []
  isHandshake _ := false
  isLoginSuccess _ := false
  next_state _ := HandshakeState.Status

theorem i32ofNat_small {n : Nat} (h : n < 2147483648) : i32ofNat n = (n : Int) := by
  unfold i32ofNat
  have h2 : n % 4294967296 = n := Nat.mod_eq_of_lt (by omega)
  simp only [h2]
  rw [if_pos]
  exact_mod_cast (by omega : (n:Int) < 2147483648)

theorem toU32_i32ofNat {n : Nat} (h : n < 4294967296) : toU32 (i32ofNat n) = n := by
  unfold toU32 i32ofNat
  have h2 : n % 4294967296 = n := Nat.mod_eq_of_lt h
  simp only [h2]
  by_cases hc : n < 2147483648
  · rw [if_pos]
    · rw [Int.emod_eq_of_lt (by omega) (by exact_mod_cast h)]
      simp
    · exact_mod_cast (by omega : (n:Int) < 2147483648)
  · rw [if_neg]
    · have : ((n : Int) - 4294967296) % 4294967296 = (n : Int) % 4294967296 := by
        omega
      rw [this, Int.emod_eq_of_lt (by omega) (by exact_mod_cast h)]
      simp
    · intro hlt
      exact hc (by exact_mod_cast hlt)

theorem i32ofNat_nonneg_of_small {n : Nat} (h : n < 2147483648) : 0 ≤ i32ofNat n := by
  rw [i32ofNat_small h]; exact Int.ofNat_nonneg n

theorem readVarIntLoop_write (fuel : Nat) :
    ∀ (u : Nat) (rest : List Nat) (numRead acc : Nat),
      u < 128 ^ fuel → fuel + numRead ≤ 5 → 1 ≤ fuel →
    readVarIntLoop (writeVarIntLoop fuel u ++ rest) numRead acc =
      .ok (acc + u * 2 ^ (7 * numRead), rest) := by
  induction fuel with
  | zero => intro u rest numRead acc _ _ h1; omega
  | succ f ih =>
    intro u rest numRead acc hu hle _
    unfold writeVarIntLoop
    by_cases hsmall : u < 128
    · simp only [if_pos hsmall]
      unfold readVarIntLoop
      have hb : u % 256 < 128 := by omega
      have hm : u % 128 = u := Nat.mod_eq_of_lt hsmall
      simp [hb, hm]
    · simp only [if_neg hsmall]
      unfold readVarIntLoop
      have hb256 : (u % 128 + 128) % 256 = u % 128 + 128 := by
        have : u % 128 < 128 := Nat.mod_lt _ (by norm_num)
        omega
      have hbig : ¬ (u % 128 + 128) % 256 < 128 := by omega
      simp only [List.cons_append, hbig, if_false]
      have hf1 : 1 ≤ f := by
        by_contra hf0
        have : f = 0 := by omega
        subst this
        simp at hu
        omega
      have hcount : ¬ 5 ≤ numRead + 1 := by omega
      simp only [hcount, if_false]
      rw [ih (u / 128) rest (numRead + 1) (acc + (u % 128 + 128) % 128 * 2 ^ (7 * numRead))
        (by
          have : u < 128 ^ (f + 1) := hu
          have h128 : 128 ^ (f + 1) = 128 ^ f * 128 := by ring
          rw [h128] at this
          exact Nat.div_lt_of_lt_mul (by omega))
        (by omega) hf1]
      congr 1
      congr 1
      have hmod : (u % 128 + 128) % 128 = u % 128 := by omega
      rw [hmod]
      have hsplit : u = 128 * (u / 128) + u % 128 := by
        omega
      have hpow : 2 ^ (7 * (numRead + 1)) = 2 ^ (7 * numRead) * 128 := by
        rw [Nat.mul_succ, pow_add]
        norm_num
      rw [hpow]
      conv_rhs => rw [hsplit]
      ring

/-- Round-trip of the codec for any in-range `i32`, with arbitrary
trailing bytes. -/
theorem read_write_var_int (v : Int) (hlo : -2147483648 ≤ v) (hhi : v < 2147483648)
    (rest : List Nat) :
    read_var_int (write_var_int v ++ rest) = .ok (v, rest) := by
  unfold read_var_int write_var_int
  have hu : toU32 v < 4294967296 := by
    unfold toU32
    have h0 : 0 ≤ v % 4294967296 := Int.emod_nonneg v (by norm_num)
    have h1 : v % 4294967296 < 4294967296 := Int.emod_lt_of_pos v (by norm_num)
    omega
  have hu5 : toU32 v < 128 ^ 5 := lt_of_lt_of_le hu (by norm_num)
  rw [readVarIntLoop_write 5 (toU32 v) rest 0 0 hu5 (by omega) (by omega)]
  simp only [Nat.zero_add, Nat.mul_zero, pow_zero, Nat.mul_one]
  congr 1
  congr 1
  -- i32ofNat (toU32 v) = v for in-range v
  unfold i32ofNat toU32
  by_cases hv : 0 ≤ v
  · have hmod : v % 4294967296 = v := Int.emod_eq_of_lt hv (by omega)
    rw [hmod]
    have htn : ((v.toNat : Int)) = v := Int.toNat_of_nonneg hv
    have h1 : v.toNat % 4294967296 = v.toNat := by
      apply Nat.mod_eq_of_lt
      omega
    simp only [h1]
    rw [if_pos]
    · exact htn
    · omega
  · push_neg at hv
    have hmod : v % 4294967296 = v + 4294967296 := by
      have h1 : (v + 4294967296) % 4294967296 = v % 4294967296 := by omega
      rw [← h1]
      exact @Int.emod_eq_of_lt (v + 4294967296) 4294967296 (by omega) (by omega)
    rw [hmod]
    have htn : (((v + 4294967296).toNat : Int)) = v + 4294967296 :=
      Int.toNat_of_nonneg (by omega)
    have h1 : (v + 4294967296).toNat % 4294967296 = (v + 4294967296).toNat := by
      apply Nat.mod_eq_of_lt
      omega
    simp only [h1]
    rw [if_neg]
    · omega
    · omega

/-- Round-trip for a natural number below `2^31` (frame lengths, ids). -/
theorem read_write_var_int_nat (n : Nat) (h : n < 2147483648) (rest : List Nat) :
    read_var_int (write_var_int (n : Int) ++ rest) = .ok ((n : Int), rest) :=
  read_write_var_int n (by omega) (by exact_mod_cast h) rest

/-- A successful VarInt read strictly consumes input. -/
theorem readVarIntLoop_consumes :
    ∀ (bs : List Nat) (n a v : Nat) (rest : List Nat),
      readVarIntLoop bs n a = .ok (v, rest) → rest.length < bs.length := by
  intro bs
  induction bs with
  | nil => intro n a v rest h; simp [readVarIntLoop] at h
  | cons b tl ih =>
    intro n a v rest h
    unfold readVarIntLoop at h
    by_cases h1 : b % 256 < 128
    · simp only [h1, if_true] at h
      cases h
      simp
    · simp only [h1, if_false] at h
      by_cases h2 : 5 ≤ n + 1
      · simp [h2] at h
      · simp only [h2, if_false] at h
        have := ih (n + 1) (a + b % 128 * 2 ^ (7 * n)) v rest h
        simp
        omega

theorem read_var_int_consumes {bs : List Nat} {v : Int} {rest : List Nat}
    (h : read_var_int bs = .ok (v, rest)) : rest.length < bs.length := by
  unfold read_var_int at h
  cases hc : readVarIntLoop bs 0 0 with
  | ok p =>
    rw [hc] at h
    cases h
    exact readVarIntLoop_consumes bs 0 0 p.1 p.2 (by rw [hc])
  | error e => rw [hc] at h; cases h

namespace ConnectionIOManager

variable {Pk Ty : Type}

/-- Case characterization of `accept_body`: it halts, crashes or
continues (never `stop`s); it never touches `incoming_compressed`; on
`next` it appends exactly one packet to the pending queue. -/
theorem accept_body_cases (P : Proto Pk Ty) (m : ConnectionIOManager Pk)
    (pl : Int) (lf : Nat) :
    (∃ m', accept_body P m pl lf = .halt m' ∧
      m'.incoming_compressed = m.incoming_compressed ∧
      m'.pending_received_packets = m.pending_received_packets ∧
      m'.stage = m.stage) ∨
    (∃ m', accept_body P m pl lf = .crash m' ∧
      m'.incoming_compressed = m.incoming_compressed ∧
      m'.pending_received_packets = m.pending_received_packets ∧
      m'.stage = m.stage) ∨
    (∃ m' p, accept_body P m pl lf = .next m' ∧
      m'.incoming_compressed = m.incoming_compressed ∧
      m'.pending_received_packets = m.pending_received_packets ++ [p] ∧
      m'.stage = stage_after P p m.stage) := by
  unfold accept_body
  split
  · exact Or.inl ⟨m, rfl, rfl, rfl, rfl⟩
  · split
    · exact Or.inl ⟨_, rfl, rfl, rfl, rfl⟩
    · split
      · split
        · exact Or.inl ⟨_, rfl, rfl, rfl, rfl⟩
        · exact Or.inr (Or.inr ⟨_, _, rfl, rfl, rfl, rfl⟩)
      · exact Or.inr (Or.inl ⟨m, rfl, rfl, rfl, rfl⟩)

/-- `decompress_data` on success drops a prefix of `incoming_compressed`. -/
theorem decompress_data_compressed {inflate : List Nat → Option (List Nat × Nat)}
    {sz : Int} {mm m1 : ConnectionIOManager Pk}
    (h : decompress_data inflate sz mm = some m1) :
    ∃ k, m1.incoming_compressed = mm.incoming_compressed.drop k := by
  unfold decompress_data at h
  split at h
  · cases h
  · cases h
    rename_i r heq
    exact ⟨r.2, rfl⟩

/-- A `next` iteration strictly consumes `incoming_compressed`. -/
theorem accept_iter_next_shrinks {P : Proto Pk Ty}
    {inflate : List Nat → Option (List Nat × Nat)} {m m' : ConnectionIOManager Pk}
    (h : accept_iter P inflate m = .next m') :
    m'.incoming_compressed.length < m.incoming_compressed.length := by
  unfold accept_iter at h
  split at h
  · cases h
  · rename_i lr heq
    have hlr : lr.2.length < m.incoming_compressed.length := read_var_int_consumes heq
    split at h
    · cases h
    · split at h
      · -- compression enabled
        split at h
        · cases h
        · rename_i ur hequ
          have hur : ur.2.length < lr.2.length := read_var_int_consumes hequ
          split at h
          · -- nonzero uncompressed size: decompress path
            split at h
            · cases h
            · rename_i m1 heqd
              rcases accept_body_cases P m1 ur.1 0 with
                ⟨m2, he, _, _⟩ | ⟨m2, he, _, _⟩ | ⟨m2, p, he, hc, _⟩
              · rw [he] at h; cases h
              · rw [he] at h; cases h
              · rw [he] at h; cases h
                rcases decompress_data_compressed heqd with ⟨k, hk⟩
                rw [hc, hk]
                simp only [List.length_drop]
                omega
          · -- literal (uncompressed_size == 0) path
            split at h
            · rcases accept_body_cases P _ lr.1 (lr.2.length - ur.2.length) with
                ⟨m2, he, _, _⟩ | ⟨m2, he, _, _⟩ | ⟨m2, p, he, hc, _⟩
              · rw [he] at h; cases h
              · rw [he] at h; cases h
              · rw [he] at h; cases h
                rw [hc]
                simp only [List.length_drop]
                omega
            · cases h
      · -- compression disabled
        split at h
        · rcases accept_body_cases P _ lr.1 0 with
            ⟨m2, he, _, _⟩ | ⟨m2, he, _, _⟩ | ⟨m2, p, he, hc, _⟩
          · rw [he] at h; cases h
          · rw [he] at h; cases h
          · rw [he] at h; cases h
            rw [hc]
            simp only [List.length_drop]
            omega
        · cases h

/-- Any two sufficiently large fuels give the same result, so the loop
models the unbounded Rust `loop` faithfully. -/
theorem accept_loop_fuel_irrelevant (P : Proto Pk Ty)
    (inflate : List Nat → Option (List Nat × Nat)) :
    ∀ (f₁ f₂ : Nat) (m : ConnectionIOManager Pk),
      m.incoming_compressed.length < f₁ → m.incoming_compressed.length < f₂ →
      accept_loop P inflate f₁ m = accept_loop P inflate f₂ m := by
  intro f₁
  induction f₁ with
  | zero => intro f₂ m h1 _; omega
  | succ g ih =>
    intro f₂ m h1 h2
    cases f₂ with
    | zero => omega
    | succ g₂ =>
      unfold accept_loop
      cases hi : accept_iter P inflate m with
      | stop m' => rfl
      | halt m' => rfl
      | crash m' => rfl
      | next m' =>
        have hs := accept_iter_next_shrinks hi
        exact ih g₂ m' (by omega) (by omega)

end ConnectionIOManager

/-! ## Structural facts about the VarInt encoding -/

theorem writeVarIntLoop_shape :
    ∀ (fuel u : Nat), u < 128 ^ fuel → 1 ≤ fuel →
      ∃ init last, writeVarIntLoop fuel u = init ++ [last] ∧ last % 256 < 128 ∧
        (∀ b ∈ init, ¬ b % 256 < 128) ∧ init.length + 1 ≤ fuel := by
  intro fuel
  induction fuel with
  | zero => intro u _ h1; omega
  | succ f ih =>
    intro u hu _
    unfold writeVarIntLoop
    by_cases hsmall : u < 128
    · exact ⟨[], u, by simp [hsmall], by omega, by simp, by simp⟩
    · simp only [if_neg hsmall]
      have hf1 : 1 ≤ f := by
        by_contra hf0
        have : f = 0 := by omega
        subst this
        simp at hu
        omega
      have hu' : u / 128 < 128 ^ f := by
        have h128 : 128 ^ (f + 1) = 128 ^ f * 128 := by ring
        rw [h128] at hu
        exact Nat.div_lt_of_lt_mul (by omega)
      obtain ⟨init, last, heq, hlast, hinit, hlen⟩ := ih (u / 128) hu' hf1
      refine ⟨(u % 128 + 128) :: init, last, by simp [heq], hlast, ?_, by simp; omega⟩
      intro b hb
      rcases List.mem_cons.mp hb with rfl | hb'
      · have : u % 128 < 128 := Nat.mod_lt _ (by norm_num)
        omega
      · exact hinit b hb'

theorem write_var_int_shape (v : Int) :
    ∃ init last, write_var_int v = init ++ [last] ∧ last % 256 < 128 ∧
      (∀ b ∈ init, ¬ b % 256 < 128) ∧ init.length + 1 ≤ 5 := by
  unfold write_var_int
  apply writeVarIntLoop_shape
  · unfold toU32
    have h0 : 0 ≤ v % 4294967296 := Int.emod_nonneg v (by norm_num)
    have h1 : v % 4294967296 < 4294967296 := Int.emod_lt_of_pos v (by norm_num)
    have : (128 : Nat) ^ 5 = 34359738368 := by norm_num
    omega
  · omega

theorem write_var_int_length_pos (v : Int) : 1 ≤ (write_var_int v).length := by
  obtain ⟨init, last, heq, -, -, -⟩ := write_var_int_shape v
  rw [heq]
  simp

theorem write_var_int_length_le (v : Int) : (write_var_int v).length ≤ 5 := by
  obtain ⟨init, last, heq, -, -, hlen⟩ := write_var_int_shape v
  rw [heq]
  simp
  omega

/-- Reading a short run of continuation bytes is `Incomplete`. -/
theorem readVarIntLoop_incomplete :
    ∀ (Q : List Nat) (n a : Nat), (∀ b ∈ Q, ¬ b % 256 < 128) → Q.length + n ≤ 4 →
      readVarIntLoop Q n a = .error .incomplete := by
  intro Q
  induction Q with
  | nil => intro n a _ _; rfl
  | cons b tl ih =>
    intro n a hall hlen
    unfold readVarIntLoop
    have hb := hall b (List.mem_cons_self b tl)
    simp only [hb, if_false]
    have : ¬ 5 ≤ n + 1 := by simp at hlen; omega
    simp only [this, if_false]
    apply ih
    · intro x hx; exact hall x (List.mem_cons_of_mem _ hx)
    · simp at hlen ⊢; omega

/-- A proper prefix of a VarInt encoding reads as `Incomplete`. -/
theorem read_var_int_prefix_incomplete {v : Int} {Q : List Nat}
    (hQ : Q <+: write_var_int v) (hne : Q ≠ write_var_int v) :
    read_var_int Q = .error .incomplete := by
  obtain ⟨init, last, heq, hlast, hinit, hlen⟩ := write_var_int_shape v
  have hQi : Q <+: init := by
    apply (List.isPrefix_append_of_length ?_).mp (heq ▸ hQ)
    by_contra hgt
    push_neg at hgt
    have h1 : Q.length ≤ (write_var_int v).length := List.IsPrefix.length_le hQ
    rw [heq] at h1
    simp at h1
    have hQlen : Q.length = init.length + 1 := by omega
    have hqe := List.IsPrefix.eq_of_length (heq ▸ hQ) (by simp [hQlen])
    exact hne (hqe.trans heq.symm)
  unfold read_var_int
  rw [readVarIntLoop_incomplete Q 0 0 ?_ ?_]
  · intro b hb
    exact hinit b (List.IsPrefix.subset hQi hb)
  · have := List.IsPrefix.length_le hQi
    omega

/-- Five bytes with the continuation bit set read as `Malformed`,
regardless of what follows. -/
theorem read_var_int_malformed5 {b1 b2 b3 b4 b5 : Nat} (rest : List Nat)
    (h1 : ¬ b1 % 256 < 128) (h2 : ¬ b2 % 256 < 128) (h3 : ¬ b3 % 256 < 128)
    (h4 : ¬ b4 % 256 < 128) (h5 : ¬ b5 % 256 < 128) :
    read_var_int (b1 :: b2 :: b3 :: b4 :: b5 :: rest) = .error .malformed := by
  unfold read_var_int
  unfold readVarIntLoop
  simp [h1, h2, h3, h4, h5, readVarIntLoop]

/-! ## Prefix decomposition helpers -/

theorem prefix_split_long {α : Type} {a b Q : List α} (h : Q <+: a ++ b)
    (hl : a.length ≤ Q.length) : ∃ Q', Q = a ++ Q' ∧ Q' <+: b := by
  rcases List.prefix_or_prefix_of_prefix h (List.prefix_append a b) with hc | hc
  · have he : Q = a := List.IsPrefix.eq_of_length hc (le_antisymm hc.length_le hl)
    subst he
    exact ⟨[], by simp, by simp⟩
  · obtain ⟨Q', rfl⟩ := hc
    refine ⟨Q', rfl, ?_⟩
    obtain ⟨t, ht⟩ := h
    refine ⟨t, ?_⟩
    have ht2 : a ++ (Q' ++ t) = a ++ b := by simpa [List.append_assoc] using ht
    exact List.append_cancel_left ht2

theorem prefix_split_short {α : Type} {a b Q : List α} (h : Q <+: a ++ b)
    (hl : Q.length ≤ a.length) : Q <+: a :=
  (List.isPrefix_append_of_length hl).mp h

namespace ConnectionIOManager

variable {Pk Ty : Type}

/-- `accept_body` on a well-formed body `varint(id) ∥ payload` standing
alone in `incoming_uncompressed`, with `packet_length` and `len_field`
consistent: parses exactly the payload, pushes the packet, applies the
stage transition, and leaves `incoming_uncompressed` empty. -/
theorem accept_body_parses (P : Proto Pk Ty) (m : ConnectionIOManager Pk)
    {v : Int} {payload : List Nat} {pty : Ty} {pkt : Pk} (pl : Int) (lf : Nat)
    (hv1 : -2147483648 ≤ v) (hv2 : v < 2147483648)
    (hlook : P.get_from_id (toU32 v) m.direction m.stage = some pty)
    (hparse : P.read_from (P.get_implementation pty) payload = some pkt)
    (hunc : m.incoming_uncompressed = write_var_int v ++ payload)
    (hpl : pl = ((write_var_int v ++ payload).length : Int) + lf) :
    accept_body P m pl lf = .next { m with
      incoming_uncompressed := []
      stage := stage_after P pkt m.stage
      pending_received_packets := m.pending_received_packets ++ [pkt] } := by
  unfold accept_body
  rw [hunc, read_write_var_int v hv1 hv2 payload]
  dsimp only
  rw [hlook]
  dsimp only
  have hsub : (write_var_int v ++ payload).length - payload.length =
      (write_var_int v).length := by simp
  have hui : upper_index pl ((write_var_int v ++ payload).length - payload.length) lf =
      (payload.length : Int) := by
    unfold upper_index
    rw [hpl, hsub]
    simp only [List.length_append]
    push_cast
    ring
  rw [hui]
  rw [if_pos (by constructor <;> simp)]
  simp only [Int.toNat_natCast, List.take_length]
  rw [hparse]
  simp only [List.drop_length]

/-- Same premises but the payload parser rejects: `accept_body` halts
(the `?` on line 167 surfaces the error). -/
theorem accept_body_parse_fails (P : Proto Pk Ty) (m : ConnectionIOManager Pk)
    {v : Int} {payload : List Nat} {pty : Ty} (pl : Int) (lf : Nat)
    (hv1 : -2147483648 ≤ v) (hv2 : v < 2147483648)
    (hlook : P.get_from_id (toU32 v) m.direction m.stage = some pty)
    (hparse : P.read_from (P.get_implementation pty) payload = none)
    (hunc : m.incoming_uncompressed = write_var_int v ++ payload)
    (hpl : pl = ((write_var_int v ++ payload).length : Int) + lf) :
    accept_body P m pl lf = .halt { m with incoming_uncompressed := payload } := by
  unfold accept_body
  rw [hunc, read_write_var_int v hv1 hv2 payload]
  dsimp only
  rw [hlook]
  dsimp only
  have hsub : (write_var_int v ++ payload).length - payload.length =
      (write_var_int v).length := by simp
  have hui : upper_index pl ((write_var_int v ++ payload).length - payload.length) lf =
      (payload.length : Int) := by
    unfold upper_index
    rw [hpl, hsub]
    simp only [List.length_append]
    push_cast
    ring
  rw [hui]
  rw [if_pos (by constructor <;> simp)]
  simp only [Int.toNat_natCast, List.take_length]
  rw [hparse]

theorem write_var_int_zero : write_var_int 0 = [0] := rfl

/-- Every well-formed frame is a frame-length VarInt followed by a
nonempty body of exactly that length. -/
theorem FrameOk.shape {P : Proto Pk Ty} {inflate : List Nat → Option (List Nat × Nat)}
    {dir : PacketDirection} {comp : Bool} {st : PacketStage} {fr : List Nat} {pkt : Pk}
    {st' : PacketStage} (h : FrameOk P inflate dir comp st fr pkt st') :
    ∃ body : List Nat, fr = write_var_int (i32ofNat body.length) ++ body ∧
      body.length < 2147483648 ∧ 1 ≤ body.length := by
  cases h with
  | @uncompressed st v payload pty pkt hv1 hv2 hlen hlook hparse =>
    exact ⟨_, rfl, hlen, by
      have := write_var_int_length_pos v
      simp only [List.length_append]
      omega⟩
  | @literal st v payload pty pkt hv1 hv2 hlen hlook hparse =>
    exact ⟨_, rfl, hlen, by simp [write_var_int_zero]⟩
  | @deflated st v payload pty pkt comp_bytes hv1 hv2 hraw hlen hinfl hlook hparse =>
    refine ⟨_, rfl, hlen, ?_⟩
    rw [List.length_append]
    have := write_var_int_length_pos (i32ofNat (write_var_int v ++ payload).length)
    omega

/-- Processing one complete well-formed frame at the head of
`incoming_compressed`: the loop body consumes exactly the frame,
decodes exactly its packet, applies its stage transition, and leaves
`incoming_uncompressed` empty. -/
theorem accept_iter_frame (P : Proto Pk Ty) (inflate : List Nat → Option (List Nat × Nat))
    {dir : PacketDirection} {comp : Bool} {st : PacketStage} {fr : List Nat} {pkt : Pk}
    {st' : PacketStage} (Hfr : FrameOk P inflate dir comp st fr pkt st')
    (m : ConnectionIOManager Pk) (T : List Nat)
    (hcomp : m.compression_enabled = comp) (hdir : m.direction = dir) (hst : m.stage = st)
    (hbuf : m.incoming_compressed = fr ++ T)
    (hunc : m.incoming_uncompressed = [])
    (hbound : fr.length + T.length < 2147483648) :
    accept_iter P inflate m = .next { m with
      incoming_compressed := T
      incoming_uncompressed := []
      stage := st'
      pending_received_packets := m.pending_received_packets ++ [pkt] } := by
  cases Hfr with
  | @uncompressed st1 v payload pty pkt1 hv1 hv2 hlen hlook hparse =>
    have hTlen : (write_var_int v ++ payload).length + T.length < 2147483648 := by
      have h1 := write_var_int_length_pos (i32ofNat (write_var_int v ++ payload).length)
      simp only [List.length_append] at hbound ⊢
      simp only [List.length_append] at h1
      omega
    unfold accept_iter
    rw [hbuf, i32ofNat_small hlen, List.append_assoc,
      read_write_var_int_nat _ hlen]
    dsimp only
    rw [if_neg ?_]
    swap
    · rw [show ((write_var_int v ++ payload) ++ T).length =
          (write_var_int v ++ payload).length + T.length by rw [List.length_append]]
      rw [i32ofNat_small (by omega)]
      push_cast
      omega
    rw [hcomp]
    simp only [Bool.false_eq_true, if_false]
    rw [if_pos ?_]
    swap
    · refine ⟨by positivity, ?_⟩
      simp only [Int.toNat_natCast, List.length_append]
      omega
    simp only [Int.toNat_natCast, List.take_left, List.drop_left]
    rw [accept_body_parses P _ _ _ hv1 hv2 ?_ hparse ?_ ?_]
    · congr 1
      rw [hst]
    · show P.get_from_id (toU32 v) m.direction m.stage = some pty
      rw [hdir, hst]
      exact hlook
    · show m.incoming_uncompressed ++ (write_var_int v ++ payload) =
        write_var_int v ++ payload
      rw [hunc]
      simp
    · push_cast
      ring
  | @literal st1 v payload pty pkt1 hv1 hv2 hlen hlook hparse =>
    have hTlen : (write_var_int 0 ++ (write_var_int v ++ payload)).length + T.length <
        2147483648 := by
      have h1 := write_var_int_length_pos
        (i32ofNat (write_var_int 0 ++ (write_var_int v ++ payload)).length)
      simp only [List.length_append] at hbound ⊢
      simp only [List.length_append] at h1
      omega
    unfold accept_iter
    rw [hbuf, i32ofNat_small hlen, List.append_assoc,
      read_write_var_int_nat _ hlen]
    dsimp only
    rw [if_neg ?_]
    swap
    · rw [show ((write_var_int 0 ++ (write_var_int v ++ payload)) ++ T).length =
          (write_var_int 0 ++ (write_var_int v ++ payload)).length + T.length by
            rw [List.length_append]]
      rw [i32ofNat_small (by omega)]
      push_cast
      omega
    rw [hcomp, if_pos rfl, List.append_assoc,
      read_write_var_int 0 (by norm_num) (by norm_num)]
    dsimp only
    rw [if_neg (by simp)]
    rw [if_pos ?_]
    swap
    · constructor
      · simp only [write_var_int_zero, List.length_append, List.length_cons,
          List.length_nil]
        omega
      · simp only [write_var_int_zero, List.length_append, List.length_cons,
          List.length_nil]
        omega
    rw [show ((((write_var_int 0 ++ (write_var_int v ++ payload)).length : Nat) : Int) - 1) =
      (((write_var_int v ++ payload).length : Nat) : Int) by
        simp only [write_var_int_zero, List.length_append, List.length_cons,
          List.length_nil]
        omega]
    simp only [Int.toNat_natCast, List.take_left, List.drop_left]
    rw [accept_body_parses P _ _ _ hv1 hv2 ?_ hparse ?_ ?_]
    · congr 1
      rw [hst]
    · show P.get_from_id (toU32 v) m.direction m.stage = some pty
      rw [hdir, hst]
      exact hlook
    · show m.incoming_uncompressed ++ (write_var_int v ++ payload) =
        write_var_int v ++ payload
      rw [hunc]
      simp
    · simp only [write_var_int_zero, List.length_append, List.length_cons,
        List.length_nil]
      omega
  | @deflated st1 v payload pty pkt1 comp_bytes hv1 hv2 hraw hlen2 hinfl hlook hparse =>
    have hrawpos : 1 ≤ (write_var_int v ++ payload).length := by
      have := write_var_int_length_pos v
      simp only [List.length_append]
      omega
    have hTlen : (write_var_int (i32ofNat (write_var_int v ++ payload).length) ++
        comp_bytes).length + T.length < 2147483648 := by
      have h1 := write_var_int_length_pos (i32ofNat (write_var_int (i32ofNat
        (write_var_int v ++ payload).length) ++ comp_bytes).length)
      simp only [List.length_append] at hbound ⊢
      simp only [List.length_append] at h1
      omega
    unfold accept_iter
    rw [hbuf, i32ofNat_small hlen2, List.append_assoc,
      read_write_var_int_nat _ hlen2]
    dsimp only
    rw [if_neg ?_]
    swap
    · rw [show ((write_var_int (i32ofNat (write_var_int v ++ payload).length) ++
          comp_bytes) ++ T).length =
          (write_var_int (i32ofNat (write_var_int v ++ payload).length) ++
            comp_bytes).length + T.length by rw [List.length_append]]
      rw [i32ofNat_small (by omega)]
      push_cast
      omega
    rw [hcomp, if_pos rfl, List.append_assoc, i32ofNat_small hraw,
      read_write_var_int_nat _ hraw]
    dsimp only
    rw [if_pos ?_]
    swap
    · exact Int.natCast_ne_zero.mpr (by omega)
    unfold decompress_data
    dsimp only
    rw [hinfl T]
    dsimp only
    rw [if_neg (Int.natCast_ne_zero.mpr (by omega : (write_var_int v ++ payload).length ≠ 0))]
    simp only [List.drop_left]
    rw [accept_body_parses P _ _ _ hv1 hv2 ?_ hparse ?_ ?_]
    · congr 1
      rw [hst]
    · show P.get_from_id (toU32 v) m.direction m.stage = some pty
      rw [hdir, hst]
      exact hlook
    · show m.incoming_uncompressed ++ (write_var_int v ++ payload) =
        write_var_int v ++ payload
      rw [hunc]
      simp
    · push_cast
      ring

/-- A strict prefix of a well-formed frame makes the loop body reset
and stop: either the length VarInt is incomplete, or fewer than
`packet_length` bytes remain. -/
theorem accept_iter_partial (P : Proto Pk Ty) (inflate : List Nat → Option (List Nat × Nat))
    {dir : PacketDirection} {comp : Bool} {st : PacketStage} {fr : List Nat} {pkt : Pk}
    {st' : PacketStage} (Hfr : FrameOk P inflate dir comp st fr pkt st')
    (m : ConnectionIOManager Pk)
    (hQ : m.incoming_compressed <+: fr) (hne : m.incoming_compressed ≠ fr) :
    accept_iter P inflate m = .stop m := by
  obtain ⟨body, hshape, hblen, hbpos⟩ := Hfr.shape
  rw [hshape] at hQ hne
  by_cases hcase :
      (write_var_int (i32ofNat body.length)).length ≤ m.incoming_compressed.length
  · obtain ⟨Q', hdec, hQ'⟩ := prefix_split_long hQ hcase
    have hQ'ne : Q' ≠ body := by
      intro he
      rw [hdec, he] at hne
      exact hne rfl
    have hQ'lt : Q'.length < body.length := by
      rcases lt_or_eq_of_le hQ'.length_le with h | h
      · exact h
      · exact absurd (List.IsPrefix.eq_of_length hQ' h) hQ'ne
    unfold accept_iter
    rw [hdec, i32ofNat_small hblen, read_write_var_int_nat _ hblen]
    dsimp only
    rw [if_pos ?_]
    rw [i32ofNat_small (by omega)]
    exact_mod_cast hQ'lt
  · push_neg at hcase
    have hQwv : m.incoming_compressed <+: write_var_int (i32ofNat body.length) :=
      prefix_split_short hQ (by omega)
    have hne2 : m.incoming_compressed ≠ write_var_int (i32ofNat body.length) := by
      intro he
      rw [he] at hcase
      omega
    unfold accept_iter
    rw [read_var_int_prefix_incomplete hQwv hne2]

theorem FrameOk.length_pos {P : Proto Pk Ty} {inflate : List Nat → Option (List Nat × Nat)}
    {dir : PacketDirection} {comp : Bool} {st : PacketStage} {fr : List Nat} {pkt : Pk}
    {st' : PacketStage} (h : FrameOk P inflate dir comp st fr pkt st') : 1 ≤ fr.length := by
  obtain ⟨body, hshape, _, hbpos⟩ := h.shape
  rw [hshape]
  simp only [List.length_append]
  have := write_var_int_length_pos (i32ofNat body.length)
  omega

theorem Frames.eq_nil_inv {P : Proto Pk Ty} {inflate : List Nat → Option (List Nat × Nat)}
    {dir : PacketDirection} {comp : Bool} {st st' : PacketStage} {S : List Nat}
    {pkts : List Pk} (h : Frames P inflate dir comp st S pkts st') (hS : S = []) :
    pkts = [] ∧ st' = st := by
  cases h with
  | nil => exact ⟨rfl, rfl⟩
  | cons hfr hrest =>
    exfalso
    have h0 := congrArg List.length hS
    simp only [List.length_append, List.length_nil] at h0
    have := hfr.length_pos
    omega

/-- Running the loop over a buffer holding a well-formed frame sequence
followed by a strict prefix of a further well-formed frame (or
nothing): all complete frames are decoded in order, the partial bytes
stay buffered, and the loop returns `Ok`. -/
theorem accept_loop_frames (P : Proto Pk Ty) (inflate : List Nat → Option (List Nat × Nat))
    {dir : PacketDirection} {comp : Bool} {st stm : PacketStage} {S : List Nat}
    {pkts : List Pk} (HS : Frames P inflate dir comp st S pkts stm) :
    ∀ (m : ConnectionIOManager Pk) (Q : List Nat) (fuel : Nat),
      m.compression_enabled = comp → m.direction = dir → m.stage = st →
      m.incoming_compressed = S ++ Q → m.incoming_uncompressed = [] →
      (S ++ Q).length < 2147483648 →
      (S ++ Q).length < fuel →
      (Q = [] ∨ ∃ fr pkt st₂, FrameOk P inflate dir comp stm fr pkt st₂ ∧
        Q <+: fr ∧ Q ≠ fr) →
      accept_loop P inflate fuel m =
        ({ m with
            incoming_compressed := Q
            stage := stm
            pending_received_packets := m.pending_received_packets ++ pkts }, .ok) := by
  induction HS with
  | nil st0 =>
    intro m Q fuel hcomp hdir hst hbuf hunc hbound hfuel hQ
    simp only [List.nil_append] at hbuf hbound hfuel
    cases fuel with
    | zero => omega
    | succ f =>
      have hstop : accept_iter P inflate m = .stop m := by
        rcases hQ with rfl | ⟨fr, pkt, st₂, hfr, hpre, hne⟩
        · unfold accept_iter
          rw [hbuf]
          rfl
        · exact accept_iter_partial P inflate hfr m (hbuf ▸ hpre) (hbuf ▸ hne)
      unfold accept_loop
      rw [hstop]
      dsimp only
      rw [show ({ m with
          incoming_compressed := Q
          stage := st0
          pending_received_packets := m.pending_received_packets ++ [] } :
            ConnectionIOManager Pk) = m by
        rw [← hbuf, ← hst, List.append_nil]]
  | @cons st1 stA stB fr S' pkt pkts' hfr hrest ih =>
    intro m Q fuel hcomp hdir hst hbuf hunc hbound hfuel hQ
    cases fuel with
    | zero =>
      exfalso
      omega
    | succ f =>
      unfold accept_loop
      rw [accept_iter_frame P inflate hfr m (S' ++ Q) hcomp hdir hst
        (by rw [hbuf, List.append_assoc]) hunc
        (by simp only [List.length_append] at hbound ⊢; omega)]
      dsimp only
      rw [ih _ Q f (by dsimp only; exact hcomp) (by dsimp only; exact hdir)
        (by dsimp only) (by dsimp only) (by dsimp only)
        (by
          simp only [List.length_append] at hbound ⊢
          omega)
        (by
          have := hfr.length_pos
          simp only [List.length_append] at hfuel ⊢
          omega)
        hQ]
      dsimp only
      simp only [List.append_assoc, List.singleton_append]
      rw [hunc]

/-- Any prefix `T` of a well-formed stream splits into the complete
frames it contains plus a strict prefix of the next frame. -/
theorem Frames.split {P : Proto Pk Ty} {inflate : List Nat → Option (List Nat × Nat)}
    {dir : PacketDirection} {comp : Bool} :
    ∀ {st st₁ : PacketStage} {R : List Nat} {pkts : List Pk}
      (_ : Frames P inflate dir comp st R pkts st₁) (T : List Nat) (_ : T <+: R),
      ∃ (D Q R' : List Nat) (pkts₁ pkts₂ : List Pk) (stm : PacketStage),
        R = D ++ R' ∧ T = D ++ Q ∧
        Frames P inflate dir comp st D pkts₁ stm ∧
        Frames P inflate dir comp stm R' pkts₂ st₁ ∧
        pkts = pkts₁ ++ pkts₂ ∧
        (Q = [] ∨ ∃ fr pkt st₂, FrameOk P inflate dir comp stm fr pkt st₂ ∧
          Q <+: fr ∧ Q ≠ fr ∧ Q.length < R'.length) := by
  intro st st₁ R pkts H
  induction H with
  | nil st0 =>
    intro T hT
    have hTnil : T = [] := List.prefix_nil.mp hT
    subst hTnil
    exact ⟨[], [], [], [], [], st0, rfl, rfl, .nil st0, .nil st0, rfl, Or.inl rfl⟩
  | @cons stX stA stB fr S' pkt pkts' hfr hrest ih =>
    intro T hT
    by_cases hc : fr.length ≤ T.length
    · obtain ⟨T', rfl, hT'⟩ := prefix_split_long hT hc
      obtain ⟨D', Q', R'', pkts₁', pkts₂', stm, hR, hTd, hD, hR', hpk, hQ'⟩ := ih T' hT'
      refine ⟨fr ++ D', Q', R'', pkt :: pkts₁', pkts₂', stm, ?_, ?_, ?_, hR', ?_, hQ'⟩
      · rw [hR, List.append_assoc]
      · rw [hTd, List.append_assoc]
      · exact .cons hfr hD
      · rw [hpk]
        rfl
    · push_neg at hc
      have hTfr : T <+: fr := prefix_split_short hT (by omega)
      have hTne : T ≠ fr := by
        intro he
        rw [he] at hc
        omega
      refine ⟨[], T, fr ++ S', [], pkt :: pkts', stX, rfl, by simp, .nil stX,
        .cons hfr hrest, rfl, Or.inr ⟨fr, pkt, stA, hfr, hTfr, hTne, ?_⟩⟩
      simp only [List.length_append]
      omega

/-- Chunked feeding of a well-formed stream: each `accept_data` call
decodes the complete frames buffered so far, keeps any partial frame,
and finally the entire packet list has been decoded with both residual
buffers empty. -/
theorem feed_all_frames (P : Proto Pk Ty) (aes : List Nat → List Nat → Nat)
    (inflate : List Nat → Option (List Nat × Nat)) {dir : PacketDirection} {comp : Bool} :
    ∀ (chunks : List (List Nat)) {stm st₁ : PacketStage} {R : List Nat} {pkts : List Pk}
      (_ : Frames P inflate dir comp stm R pkts st₁)
      (m : ConnectionIOManager Pk) (Q : List Nat),
      m.encryption_enabled = false →
      m.compression_enabled = comp → m.direction = dir → m.stage = stm →
      m.incoming_compressed = Q → m.incoming_uncompressed = [] →
      Q ++ chunks.flatten = R →
      R.length < 2147483648 →
      (Q = [] ∨ ∃ fr pkt st₂, FrameOk P inflate dir comp stm fr pkt st₂ ∧
        Q <+: fr ∧ Q ≠ fr ∧ Q.length < R.length) →
      feed_all P aes inflate m chunks =
        ({ m with
            incoming_compressed := []
            stage := st₁
            pending_received_packets := m.pending_received_packets ++ pkts }, .ok) := by
  intro chunks
  induction chunks with
  | nil =>
    intro stm st₁ R pkts HR m Q henc hcomp hdir hst hbuf hunc hflat hbound hQ
    simp only [List.flatten_nil, List.append_nil] at hflat
    subst hflat
    rcases hQ with rfl | ⟨fr, pkt, st₂, hfr, hpre, hne, hlt⟩
    · obtain ⟨rfl, rfl⟩ := HR.eq_nil_inv rfl
      show (m, AStatus.ok) = _
      rw [List.append_nil, ← hbuf, ← hst]
    · omega
  | cons c cs ih =>
    intro stm st₁ R pkts HR m Q henc hcomp hdir hst hbuf hunc hflat hbound hQ
    simp only [List.flatten_cons] at hflat
    have hTpre : (Q ++ c) <+: R := ⟨cs.flatten, by rw [List.append_assoc, hflat]⟩
    obtain ⟨D, Q', R', pkts₁, pkts₂, stm', hR, hT, hD, hR', hpk, hQ'⟩ :=
      HR.split (Q ++ c) hTpre
    have hQR' : Q' ++ cs.flatten = R' := by
      have h1 : (Q ++ c) ++ cs.flatten = R := by rw [List.append_assoc, hflat]
      rw [hT, hR, List.append_assoc] at h1
      exact List.append_cancel_left h1
    have hloop := accept_loop_frames P inflate hD
      { m with incoming_compressed := m.incoming_compressed ++ c } Q'
      (m.incoming_compressed.length + c.length + 1)
      (by dsimp only; exact hcomp) (by dsimp only; exact hdir) (by dsimp only; exact hst)
      (by dsimp only; rw [hbuf, hT]) (by dsimp only; exact hunc)
      (by
        rw [← hT]
        have := hTpre.length_le
        simp only [List.length_append] at this ⊢
        omega)
      (by
        rw [← hT, hbuf]
        simp only [List.length_append]
        omega)
      (by
        rcases hQ' with h | ⟨fr, pkt, st₂, hfr, hpre, hne, _⟩
        · exact Or.inl h
        · exact Or.inr ⟨fr, pkt, st₂, hfr, hpre, hne⟩)
    show (match accept_data P aes inflate m c with
      | (m', AStatus.ok) => feed_all P aes inflate m' cs
      | (m', s) => (m', s)) = _
    unfold accept_data
    rw [if_neg (by rw [henc]; simp)]
    rw [hloop]
    dsimp only
    rw [ih hR' ({ m with
        incoming_compressed := Q'
        stage := stm'
        pending_received_packets := m.pending_received_packets ++ pkts₁ }) Q'
      henc hcomp hdir rfl rfl hunc hQR'
      (by
        have : R'.length ≤ R.length := by
          rw [hR]
          simp only [List.length_append]
          omega
        omega)
      (by
        rcases hQ' with h | ⟨fr, pkt, st₂, hfr, hpre, hne, hlt⟩
        · exact Or.inl h
        · exact Or.inr ⟨fr, pkt, st₂, hfr, hpre, hne, hlt⟩)]
    dsimp only
    rw [hunc, List.append_assoc, hpk]

/-- With encryption off, `serialize_packet` emits exactly
`varint(len envelope) ∥ envelope` and performs the LoginSuccess stage
transition first. -/
theorem serialize_packet_spec (P : Proto Pk Ty) (aes : List Nat → List Nat → Nat)
    (deflate : List Nat → List Nat) (m : ConnectionIOManager Pk) (packet : Pk)
    (henc : m.encryption_enabled = false) :
    serialize_packet P aes deflate m packet =
      some ((if P.isLoginSuccess (P.ty packet) then { m with stage := PacketStage.Play }
          else m),
        write_var_int (i32ofNat (serialize_envelope P deflate m packet).length) ++
          serialize_envelope P deflate m packet) := by
  unfold serialize_packet serialize_envelope serialize_body
  by_cases hls : P.isLoginSuccess (P.ty packet) = true
  · simp only [hls, if_true]
    rw [if_neg (by simp [henc])]
    unfold compress_data
    rfl
  · simp only [hls, if_false]
    rw [if_neg (by simp [henc])]
    unfold compress_data
    rfl

/-- The stage after `serialize_packet`: `Play` for LoginSuccess, else
unchanged (lines 193–195); holds regardless of the cipher state. -/
theorem serialize_packet_stage (P : Proto Pk Ty) (aes : List Nat → List Nat → Nat)
    (deflate : List Nat → List Nat) (m : ConnectionIOManager Pk) (packet : Pk) :
    ∀ r ∈ serialize_packet P aes deflate m packet,
      r.1.stage = if P.isLoginSuccess (P.ty packet) then PacketStage.Play else m.stage := by
  intro r hr
  unfold serialize_packet at hr
  set m0 := if P.isLoginSuccess (P.ty packet) then
      ({ m with stage := PacketStage.Play } : ConnectionIOManager Pk) else m with hm0
  have hstage : m0.stage =
      if P.isLoginSuccess (P.ty packet) then PacketStage.Play else m.stage := by
    rw [hm0]
    split
    · rfl
    · rfl
  rw [← hstage]
  by_cases henc : m0.encryption_enabled = true
  · rw [if_pos henc] at hr
    cases hc : m0.encrypter with
    | none => rw [hc] at hr; simp at hr
    | some c =>
      rw [hc] at hr
      simp only [Option.mem_def, Option.some.injEq] at hr
      subst hr
      rfl
  · rw [if_neg henc] at hr
    simp only [Option.mem_def, Option.some.injEq] at hr
    subst hr
    rfl

theorem i32ofNat_range (n : Nat) :
    -2147483648 ≤ i32ofNat n ∧ i32ofNat n < 2147483648 := by
  unfold i32ofNat
  have h0 : n % 4294967296 < 4294967296 := Nat.mod_lt _ (by norm_num)
  by_cases hc : n % 4294967296 < 2147483648
  · rw [if_pos hc]
    constructor <;> [omega; exact_mod_cast hc]
  · rw [if_neg hc]
    push_neg at hc
    constructor
    · have : (2147483648 : Int) ≤ (n % 4294967296 : Nat) := by exact_mod_cast hc
      omega
    · have : ((n % 4294967296 : Nat) : Int) < 4294967296 := by exact_mod_cast h0
      omega

/-- Feeding a whole well-formed stream in one `accept_data` call. -/
theorem accept_data_frames (P : Proto Pk Ty) (aes : List Nat → List Nat → Nat)
    (inflate : List Nat → Option (List Nat × Nat)) {dir : PacketDirection} {comp : Bool}
    {st st₁ : PacketStage} {S : List Nat} {pkts : List Pk}
    (HS : Frames P inflate dir comp st S pkts st₁)
    (m : ConnectionIOManager Pk)
    (henc : m.encryption_enabled = false) (hcomp : m.compression_enabled = comp)
    (hdir : m.direction = dir) (hst : m.stage = st)
    (hbuf : m.incoming_compressed = []) (hunc : m.incoming_uncompressed = [])
    (hbound : S.length < 2147483648) :
    accept_data P aes inflate m S =
      ({ m with
          incoming_compressed := []
          stage := st₁
          pending_received_packets := m.pending_received_packets ++ pkts }, .ok) := by
  unfold accept_data
  rw [if_neg (by rw [henc]; simp)]
  rw [accept_loop_frames P inflate HS _ []
    (m.incoming_compressed.length + S.length + 1)
    (by dsimp only; exact hcomp) (by dsimp only; exact hdir) (by dsimp only; exact hst)
    (by dsimp only; rw [hbuf, List.append_nil, List.nil_append])
    (by dsimp only; exact hunc)
    (by rw [List.append_nil]; omega)
    (by rw [List.append_nil, hbuf]; simp)
    (Or.inl rfl)]

theorem readVarIntLoop_suffix :
    ∀ (bs : List Nat) (n a : Nat) (p : Nat × List Nat),
      readVarIntLoop bs n a = .ok p → p.2 <:+ bs := by
  intro bs
  induction bs with
  | nil => intro n a p h; simp [readVarIntLoop] at h
  | cons b tl ih =>
    intro n a p h
    unfold readVarIntLoop at h
    by_cases h1 : b % 256 < 128
    · simp only [h1, if_true] at h
      cases h
      exact (List.suffix_cons b tl)
    · simp only [h1, if_false] at h
      by_cases h2 : 5 ≤ n + 1
      · simp [h2] at h
      · simp only [h2, if_false] at h
        exact (ih _ _ _ h).trans (List.suffix_cons b tl)

theorem read_var_int_suffix {bs : List Nat} {p : Int × List Nat}
    (h : read_var_int bs = .ok p) : p.2 <:+ bs := by
  unfold read_var_int at h
  cases hc : readVarIntLoop bs 0 0 with
  | ok q =>
    rw [hc] at h
    cases h
    exact readVarIntLoop_suffix bs 0 0 q hc
  | error e => rw [hc] at h; cases h

theorem stage_after_cases (P : Proto Pk Ty) (pkt : Pk) (st : PacketStage) :
    stage_after P pkt st = st ∨ stage_after P pkt st = PacketStage.Status ∨
      stage_after P pkt st = PacketStage.Login := by
  unfold stage_after
  split
  · split
    · exact Or.inr (Or.inr rfl)
    · exact Or.inr (Or.inl rfl)
  · exact Or.inl rfl

theorem decompress_data_state {inflate : List Nat → Option (List Nat × Nat)}
    {sz : Int} {mm m1 : ConnectionIOManager Pk}
    (h : decompress_data inflate sz mm = some m1) :
    (∃ k, m1.incoming_compressed = mm.incoming_compressed.drop k) ∧
    m1.pending_received_packets = mm.pending_received_packets ∧
    m1.stage = mm.stage := by
  unfold decompress_data at h
  split at h
  · cases h
  · cases h
    rename_i r heq
    exact ⟨⟨r.2, rfl⟩, rfl, rfl⟩

/-- One loop iteration only ever consumes from `incoming_compressed`,
only ever appends to the pending queue, and only ever moves the stage
to `Status` or `Login`. -/
theorem accept_iter_state (P : Proto Pk Ty) (inflate : List Nat → Option (List Nat × Nat))
    (m : ConnectionIOManager Pk) :
    (accept_iter P inflate m).state.incoming_compressed <:+ m.incoming_compressed ∧
    m.pending_received_packets <+:
      (accept_iter P inflate m).state.pending_received_packets ∧
    ((accept_iter P inflate m).state.stage = m.stage ∨
      (accept_iter P inflate m).state.stage = PacketStage.Status ∨
      (accept_iter P inflate m).state.stage = PacketStage.Login) := by
  have hbody : ∀ (m₂ : ConnectionIOManager Pk) (pl : Int) (lf : Nat),
      m₂.incoming_compressed <:+ m.incoming_compressed →
      m₂.pending_received_packets = m.pending_received_packets →
      m₂.stage = m.stage →
      (accept_body P m₂ pl lf).state.incoming_compressed <:+ m.incoming_compressed ∧
      m.pending_received_packets <+:
        (accept_body P m₂ pl lf).state.pending_received_packets ∧
      ((accept_body P m₂ pl lf).state.stage = m.stage ∨
        (accept_body P m₂ pl lf).state.stage = PacketStage.Status ∨
        (accept_body P m₂ pl lf).state.stage = PacketStage.Login) := by
    intro m₂ pl lf hsuf hpend hstage
    rcases accept_body_cases P m₂ pl lf with
      ⟨m3, he, hc, hp, hs⟩ | ⟨m3, he, hc, hp, hs⟩ | ⟨m3, p, he, hc, hp, hs⟩ <;> rw [he] <;>
      dsimp only [IterResult.state]
    · exact ⟨hc ▸ hsuf, hp ▸ hpend ▸ List.prefix_refl _, Or.inl (hs.trans hstage)⟩
    · exact ⟨hc ▸ hsuf, hp ▸ hpend ▸ List.prefix_refl _, Or.inl (hs.trans hstage)⟩
    · refine ⟨hc ▸ hsuf, ?_, ?_⟩
      · rw [hp, hpend]
        exact ⟨[p], rfl⟩
      · rw [hs, hstage]
        exact stage_after_cases P p m.stage
  unfold accept_iter
  split
  · exact ⟨List.suffix_refl _, List.prefix_refl _, Or.inl rfl⟩
  · rename_i lr heq
    have hsuf : lr.2 <:+ m.incoming_compressed := read_var_int_suffix heq
    split
    · exact ⟨List.suffix_refl _, List.prefix_refl _, Or.inl rfl⟩
    · split
      · split
        · exact ⟨List.suffix_refl _, List.prefix_refl _, Or.inl rfl⟩
        · rename_i ur hequ
          have hsuf2 : ur.2 <:+ lr.2 := read_var_int_suffix hequ
          split
          · split
            · exact ⟨List.suffix_refl _, List.prefix_refl _, Or.inl rfl⟩
            · rename_i m1 heqd
              obtain ⟨⟨k, hk⟩, hp1, hs1⟩ := decompress_data_state heqd
              exact hbody m1 ur.1 0
                (by
                  rw [hk]
                  exact (List.drop_suffix _ _).trans (hsuf2.trans hsuf))
                hp1 hs1
          · split
            · exact hbody _ _ _
                ((List.drop_suffix _ _).trans (hsuf2.trans hsuf)) rfl rfl
            · exact ⟨List.suffix_refl _, List.prefix_refl _, Or.inl rfl⟩
      · split
        · exact hbody _ _ _ ((List.drop_suffix _ _).trans hsuf) rfl rfl
        · exact ⟨List.suffix_refl _, List.prefix_refl _, Or.inl rfl⟩

/-- The loop-level version of `accept_iter_state`. -/
theorem accept_loop_state (P : Proto Pk Ty) (inflate : List Nat → Option (List Nat × Nat)) :
    ∀ (fuel : Nat) (m : ConnectionIOManager Pk),
      (accept_loop P inflate fuel m).1.incoming_compressed <:+ m.incoming_compressed ∧
      m.pending_received_packets <+:
        (accept_loop P inflate fuel m).1.pending_received_packets ∧
      ((accept_loop P inflate fuel m).1.stage = m.stage ∨
        (accept_loop P inflate fuel m).1.stage = PacketStage.Status ∨
        (accept_loop P inflate fuel m).1.stage = PacketStage.Login) := by
  intro fuel
  induction fuel with
  | zero =>
    intro m
    exact ⟨List.suffix_refl _, List.prefix_refl _, Or.inl rfl⟩
  | succ f ih =>
    intro m
    have hit := accept_iter_state P inflate m
    unfold accept_loop
    cases hi : accept_iter P inflate m with
    | stop m' => rw [hi] at hit; exact hit
    | halt m' => rw [hi] at hit; exact hit
    | crash m' => rw [hi] at hit; exact hit
    | next m' =>
      rw [hi] at hit
      obtain ⟨h1, h2, h3⟩ := hit
      obtain ⟨g1, g2, g3⟩ := ih m'
      refine ⟨g1.trans h1, h2.trans g2, ?_⟩
      rcases g3 with hg | hg | hg
      · rw [hg]
        exact h3
      · exact Or.inr (Or.inl hg)
      · exact Or.inr (Or.inr hg)

/-- When the buffered input ends mid-frame — the frame-length VarInt
read fails, or fewer than `packet_length` bytes remain — `accept_data`
returns `Ok` and keeps all bytes buffered. -/
theorem accept_data_waits (P : Proto Pk Ty) (aes : List Nat → List Nat → Nat)
    (inflate : List Nat → Option (List Nat × Nat))
    (m : ConnectionIOManager Pk) (data : List Nat)
    (henc : m.encryption_enabled = false)
    (h : (∃ e, read_var_int (m.incoming_compressed ++ data) = .error e) ∨
         (∃ p, read_var_int (m.incoming_compressed ++ data) = .ok p ∧
            i32ofNat p.2.length < p.1)) :
    accept_data P aes inflate m data =
      ({ m with incoming_compressed := m.incoming_compressed ++ data }, .ok) := by
  unfold accept_data
  rw [if_neg (by simp [henc])]
  unfold accept_loop
  have hstop : accept_iter P inflate
      ({ m with incoming_compressed := m.incoming_compressed ++ data } :
        ConnectionIOManager Pk) =
      .stop { m with incoming_compressed := m.incoming_compressed ++ data } := by
    unfold accept_iter
    rcases h with ⟨e, he⟩ | ⟨p, hp, hlt⟩
    · rw [he]
    · rw [hp]
      dsimp only
      rw [if_pos hlt]
  rw [hstop]

/-- The uncompressed ingress path when the payload parser rejects: the
`?` on line 167 surfaces the failure as `Err`. -/
theorem accept_data_parse_err (P : Proto Pk Ty) (aes : List Nat → List Nat → Nat)
    (inflate : List Nat → Option (List Nat × Nat))
    {v : Int} {payload : List Nat} {pty : Ty}
    (m : ConnectionIOManager Pk)
    (henc : m.encryption_enabled = false) (hcomp : m.compression_enabled = false)
    (hbuf : m.incoming_compressed = []) (hunc : m.incoming_uncompressed = [])
    (hv1 : -2147483648 ≤ v) (hv2 : v < 2147483648)
    (hlen : (write_var_int v ++ payload).length < 2147483648)
    (hlook : P.get_from_id (toU32 v) m.direction m.stage = some pty)
    (hparse : P.read_from (P.get_implementation pty) payload = none) :
    (accept_data P aes inflate m
      (write_var_int (i32ofNat (write_var_int v ++ payload).length) ++
        (write_var_int v ++ payload))).2 = .err := by
  unfold accept_data
  rw [if_neg (by simp [henc])]
  generalize hfuel : m.incoming_compressed.length +
    (write_var_int (i32ofNat (write_var_int v ++ payload).length) ++
      (write_var_int v ++ payload)).length + 1 = fuel
  have hfpos : 1 ≤ fuel := by omega
  obtain ⟨f, rfl⟩ : ∃ f, fuel = f + 1 := ⟨fuel - 1, by omega⟩
  unfold accept_loop
  have hiter : ∃ mh, accept_iter P inflate
      ({ m with incoming_compressed := m.incoming_compressed ++
        (write_var_int (i32ofNat (write_var_int v ++ payload).length) ++
          (write_var_int v ++ payload)) } : ConnectionIOManager Pk) = .halt mh := by
    unfold accept_iter
    rw [show (({ m with incoming_compressed := m.incoming_compressed ++
        (write_var_int (i32ofNat (write_var_int v ++ payload).length) ++
          (write_var_int v ++ payload)) } : ConnectionIOManager Pk)).incoming_compressed =
        write_var_int (i32ofNat (write_var_int v ++ payload).length) ++
          (write_var_int v ++ payload) by
      dsimp only
      rw [hbuf, List.nil_append]]
    rw [i32ofNat_small hlen, read_write_var_int_nat _ hlen]
    dsimp only
    rw [if_neg (by
      rw [i32ofNat_small (by omega)]
      omega)]
    rw [if_neg (by rw [hcomp]; simp)]
    rw [if_pos (by
      constructor
      · positivity
      · simp only [Int.toNat_natCast]
        omega)]
    rw [show ((((write_var_int v ++ payload).length : Nat) : Int)).toNat =
      (write_var_int v ++ payload).length from Int.toNat_natCast _]
    rw [List.take_length, List.drop_length]
    rw [accept_body_parse_fails P _ _ _ hv1 hv2 ?_ hparse ?_ ?_]
    · exact ⟨_, rfl⟩
    · show P.get_from_id (toU32 v) m.direction m.stage = some pty
      exact hlook
    · show m.incoming_uncompressed ++ (write_var_int v ++ payload) =
        write_var_int v ++ payload
      rw [hunc, List.nil_append]
    · push_cast
      ring
  obtain ⟨mh, hiter⟩ := hiter
  rw [hiter]

/-- `accept_data` only consumes input (never restores consumed bytes to
the residual buffer) and only appends to the pending queue, whatever its
status. -/
theorem accept_data_state (P : Proto Pk Ty) (aes : List Nat → List Nat → Nat)
    (inflate : List Nat → Option (List Nat × Nat))
    (m : ConnectionIOManager Pk) (data : List Nat)
    (henc : m.encryption_enabled = false) :
    (accept_data P aes inflate m data).1.incoming_compressed <:+
      m.incoming_compressed ++ data ∧
    m.pending_received_packets <+:
      (accept_data P aes inflate m data).1.pending_received_packets := by
  unfold accept_data
  rw [if_neg (by simp [henc])]
  have h := accept_loop_state P inflate
    (m.incoming_compressed.length + data.length + 1)
    ({ m with incoming_compressed := m.incoming_compressed ++ data } :
      ConnectionIOManager Pk)
  exact ⟨h.1, h.2.1⟩

/-- The stage after `accept_data` is the old stage, `Status`, or
`Login`, in every regime. -/
theorem accept_data_stage (P : Proto Pk Ty) (aes : List Nat → List Nat → Nat)
    (inflate : List Nat → Option (List Nat × Nat))
    (m : ConnectionIOManager Pk) (data : List Nat) :
    (accept_data P aes inflate m data).1.stage = m.stage ∨
    (accept_data P aes inflate m data).1.stage = PacketStage.Status ∨
    (accept_data P aes inflate m data).1.stage = PacketStage.Login := by
  unfold accept_data
  split
  · split
    · exact Or.inl rfl
    · exact (accept_loop_state P inflate _ _).2.2
  · exact (accept_loop_state P inflate _ _).2.2

end ConnectionIOManager

/-- Parsing the spec-modelled Handshake payload: `next_state` 1 gives
Status, 2 gives Login, anything else is rejected. -/
theorem read_handshake_payload (pv : Int) (addr : List Nat) (port : Nat) (ns : Int)
    (hpv1 : -2147483648 ≤ pv) (hpv2 : pv < 2147483648)
    (haddr : addr.length < 2147483648)
    (hport : port < 65536)
    (hns1 : -2147483648 ≤ ns) (hns2 : ns < 2147483648) :
    read_handshake (handshake_payload pv addr port ns) =
      if ns = 1 then some ⟨pv, addr, port, HandshakeState.Status⟩
      else if ns = 2 then some ⟨pv, addr, port, HandshakeState.Login⟩
      else none := by
  unfold read_handshake handshake_payload
  simp only [List.append_assoc]
  rw [read_write_var_int pv hpv1 hpv2]
  dsimp only
  rw [i32ofNat_small haddr, read_write_var_int_nat _ haddr]
  dsimp only
  rw [if_pos (by
    refine ⟨by positivity, ?_⟩
    simp only [Int.toNat_natCast, List.length_append]
    omega)]
  simp only [Int.toNat_natCast, List.take_left, List.drop_left,
    List.cons_append, List.nil_append]
  rw [show write_var_int ns = write_var_int ns ++ [] from (List.append_nil _).symm,
    read_write_var_int ns hns1 hns2]
  dsimp only
  have hport_eq : port / 256 % 256 * 256 + port % 256 = port := by omega
  rw [hport_eq]

open ConnectionIOManager

/-! ## Claims -/

/-- C10: every call to `enable_encryption(key)` — including a repeated
call on a framer that already has encryption enabled — replaces both
the encrypt-side and decrypt-side cipher states with freshly seeded
AES-128/CFB8 states using `key` as both key and IV (discarding any
byte-position state the previous ciphers had accumulated), and records
the flag and the key. -/
theorem c10_enable_encryption_reseeds {Pk : Type} (m : ConnectionIOManager Pk)
    (key : List Nat) :
    (m.enable_encryption key).encrypter = some (cfb8_new_var key key) ∧
    (m.enable_encryption key).decrypter = some (cfb8_new_var key key) ∧
    (m.enable_encryption key).encryption_enabled = true ∧
    (m.enable_encryption key).encryption_key = key :=
  ⟨rfl, rfl, rfl, rfl⟩

/-- C3: with encryption off, `serialize_packet` returns
`varint(len envelope) ∥ envelope`, where the envelope is the encoded
body when compression is disabled, `varint(0) ∥ body` when compression
is enabled and the body is below the threshold, and
`varint(len body) ∥ deflate(body)` otherwise. -/
theorem c3_serialize_frame_layout {Pk Ty : Type} (P : Proto Pk Ty)
    (aes : List Nat → List Nat → Nat) (deflate : List Nat → List Nat)
    (m : ConnectionIOManager Pk) (packet : Pk)
    (henc : m.encryption_enabled = false)
    (hbody : (serialize_body P packet).length < 2147483648)
    (henv : (serialize_envelope P deflate m packet).length < 2147483648) :
    serialize_packet P aes deflate m packet =
      some ((if P.isLoginSuccess (P.ty packet) then { m with stage := PacketStage.Play }
          else m),
        write_var_int ((serialize_envelope P deflate m packet).length : Int) ++
          serialize_envelope P deflate m packet) ∧
    (m.compression_enabled = false →
      serialize_envelope P deflate m packet = serialize_body P packet) ∧
    (m.compression_enabled = true →
      (serialize_body P packet).length < m.compression_threshold →
      serialize_envelope P deflate m packet =
        write_var_int 0 ++ serialize_body P packet) ∧
    (m.compression_enabled = true →
      ¬ (serialize_body P packet).length < m.compression_threshold →
      serialize_envelope P deflate m packet =
        write_var_int ((serialize_body P packet).length : Int) ++
          deflate (serialize_body P packet)) := by
  refine ⟨?_, ?_, ?_, ?_⟩
  · rw [serialize_packet_spec P aes deflate m packet henc, i32ofNat_small henv]
  · intro hc
    unfold serialize_envelope
    rw [hc]
    simp
  · intro hc hlt
    unfold serialize_envelope
    rw [hc]
    simp only [if_true]
    rw [if_pos hlt]
  · intro hc hge
    unfold serialize_envelope
    rw [hc]
    simp only [if_true]
    rw [if_neg hge, i32ofNat_small hbody]

/-- Witness for C3 at a concrete input: a compression-enabled framer
with threshold 100 serializing the (2-byte-body) LoginSuccess packet. -/
theorem c3_serialize_frame_layout_witness :
    serialize_packet specProto idAes idDeflate playCompressedMgr MPkt.loginSuccess =
      some ((if specProto.isLoginSuccess (specProto.ty MPkt.loginSuccess) then
          { playCompressedMgr with stage := PacketStage.Play } else playCompressedMgr),
        write_var_int ((serialize_envelope specProto idDeflate playCompressedMgr
            MPkt.loginSuccess).length : Int) ++
          serialize_envelope specProto idDeflate playCompressedMgr MPkt.loginSuccess) ∧
    (playCompressedMgr.compression_enabled = false →
      serialize_envelope specProto idDeflate playCompressedMgr MPkt.loginSuccess =
        serialize_body specProto MPkt.loginSuccess) ∧
    (playCompressedMgr.compression_enabled = true →
      (serialize_body specProto MPkt.loginSuccess).length <
        playCompressedMgr.compression_threshold →
      serialize_envelope specProto idDeflate playCompressedMgr MPkt.loginSuccess =
        write_var_int 0 ++ serialize_body specProto MPkt.loginSuccess) ∧
    (playCompressedMgr.compression_enabled = true →
      ¬ (serialize_body specProto MPkt.loginSuccess).length <
        playCompressedMgr.compression_threshold →
      serialize_envelope specProto idDeflate playCompressedMgr MPkt.loginSuccess =
        write_var_int ((serialize_body specProto MPkt.loginSuccess).length : Int) ++
          idDeflate (serialize_body specProto MPkt.loginSuccess)) :=
  c3_serialize_frame_layout specProto idAes idDeflate playCompressedMgr MPkt.loginSuccess
    rfl (by decide) (by decide)

/-- C4 (amended): when the buffered input ends mid-frame at the framing
layer — the frame-length VarInt read is `Incomplete`, or fewer than the
declared `packet_length` bytes remain — `accept_data` returns `Ok`,
keeps all bytes buffered, and surfaces no error. The three-condition
characterization of errors fails in the other direction too: inside a
length-complete frame, an incomplete packet-id VarInt (the `?` on line
145, fed the zero-length frame `[0]`) or an incomplete uncompressed-size
VarInt (the `?` on line 119, fed `[1, 128]` with compression on) is
propagated as `Err` even under a registry that never misses and a
payload parser that always succeeds. -/
theorem c4_mid_frame_returns_ok {Pk Ty : Type} (P : Proto Pk Ty)
    (aes : List Nat → List Nat → Nat) (inflate : List Nat → Option (List Nat × Nat))
    (m : ConnectionIOManager Pk) (data : List Nat)
    (henc : m.encryption_enabled = false)
    (h : read_var_int (m.incoming_compressed ++ data) = .error VErr.incomplete ∨
      ∃ p, read_var_int (m.incoming_compressed ++ data) = .ok p ∧
        i32ofNat p.2.length < p.1) :
    accept_data P aes inflate m data =
      ({ m with incoming_compressed := m.incoming_compressed ++ data }, .ok) ∧
    (accept_data totalProto idAes idInflate
      (ConnectionIOManager.new PacketDirection.Serverbound) [0]).2 = .err ∧
    (accept_data totalProto idAes idInflate
      ((ConnectionIOManager.new PacketDirection.Serverbound).enable_compression 100)
      [1, 128]).2 = .err := by
  refine ⟨?_, by decide, by decide⟩
  apply accept_data_waits P aes inflate m data henc
  rcases h with h | h
  · exact Or.inl ⟨VErr.incomplete, h⟩
  · exact Or.inr h

/-- Witness for C4's amended behaviour: a lone continuation byte is an
incomplete frame-length VarInt and is kept buffered with status `Ok`. -/
theorem c4_mid_frame_returns_ok_witness :
    accept_data specProto idAes idInflate
      (ConnectionIOManager.new PacketDirection.Serverbound : ConnectionIOManager MPkt)
      [128] =
      ({ (ConnectionIOManager.new PacketDirection.Serverbound : ConnectionIOManager MPkt)
        with incoming_compressed :=
          (ConnectionIOManager.new PacketDirection.Serverbound :
            ConnectionIOManager MPkt).incoming_compressed ++ [128] }, .ok) :=
  (c4_mid_frame_returns_ok specProto idAes idInflate
    (ConnectionIOManager.new PacketDirection.Serverbound) [128] rfl (Or.inl rfl)).1

/-- C4 counterexample: errors are *not* limited to the three listed
conditions' converse — here a decompression size mismatch (declared
uncompressed size 2, inflater yields the 3 bytes `[1, 7, 8]`) produces
*no* error: the frame decodes "successfully", refuting the claimed
"error iff unknown id / malformed payload / decompression mismatch". -/
theorem c4_counterexample_mismatch_no_error :
    c4Inflate [50] = some ([1, 7, 8], 1) ∧
    (accept_data specProto idAes c4Inflate playCompressedMgr [2, 2, 50]).2 = AStatus.ok ∧
    (accept_data specProto idAes c4Inflate playCompressedMgr
      [2, 2, 50]).1.pending_received_packets = [MPkt.blob 1 [7]] := by
  refine ⟨rfl, by decide, by decide⟩

/-- C5 (amended): `decompress_data` hands whatever the inflater yields
to `incoming_uncompressed` without comparing its length against the
declared `uncompressed_size` — there is no verification and no
`MalformedFrame` on mismatch (the hypothesis places no constraint
whatsoever on `out.length` versus `sz`). -/
theorem c5_decompress_no_verification {Pk : Type}
    (inflate : List Nat → Option (List Nat × Nat)) (sz : Int)
    (m : ConnectionIOManager Pk) (out : List Nat) (k : Nat)
    (hsz : ¬ sz = 0) (hinf : inflate m.incoming_compressed = some (out, k)) :
    decompress_data inflate sz m =
      some { m with
        incoming_uncompressed := m.incoming_uncompressed ++ out
        incoming_compressed := m.incoming_compressed.drop k } := by
  unfold decompress_data
  rw [hinf]
  dsimp only
  rw [if_neg hsz]

/-- Witness for C5's amended behaviour at a concrete mismatch: declared
size 2, inflated output of length 5 — accepted unchecked. -/
theorem c5_decompress_no_verification_witness :
    decompress_data c5Inflate 2
      ({ playCompressedMgr with incoming_compressed := [99] } :
        ConnectionIOManager MPkt) =
      some { ({ playCompressedMgr with incoming_compressed := [99] } :
          ConnectionIOManager MPkt) with
        incoming_uncompressed :=
          ({ playCompressedMgr with incoming_compressed := [99] } :
            ConnectionIOManager MPkt).incoming_uncompressed ++ [0, 7, 8, 9, 10]
        incoming_compressed := ([99] : List Nat).drop 1 } :=
  c5_decompress_no_verification c5Inflate 2 _ [0, 7, 8, 9, 10] 1 (by decide) rfl

/-- C5 counterexample: a compression-enabled frame declaring
uncompressed size 2 whose inflater yields 5 bytes is decoded without
any `MalformedFrame`: `accept_data` returns `Ok`, and the excess bytes
are even left behind in `incoming_uncompressed`. -/
theorem c5_counterexample_mismatch_accepted :
    c5Inflate [99] = some ([0, 7, 8, 9, 10], 1) ∧
    (accept_data specProto idAes c5Inflate playCompressedMgr [2, 2, 99]).2 = AStatus.ok ∧
    (accept_data specProto idAes c5Inflate playCompressedMgr
      [2, 2, 99]).1.incoming_uncompressed = [8, 9, 10] := by
  refine ⟨rfl, by decide, by decide⟩

/-- C6 (amended): a frame-length VarInt of five continuation bytes is
*not* rejected: the malformed-VarInt failure falls into the same
reset-and-stop path as an incomplete read, so `accept_data` returns
`Ok` and leaves the bytes buffered (the connection stalls instead of
failing). -/
theorem c6_malformed_varint_treated_as_incomplete {Pk Ty : Type} (P : Proto Pk Ty)
    (aes : List Nat → List Nat → Nat) (inflate : List Nat → Option (List Nat × Nat))
    (m : ConnectionIOManager Pk) (b1 b2 b3 b4 b5 : Nat) (rest : List Nat)
    (henc : m.encryption_enabled = false) (hbuf : m.incoming_compressed = [])
    (h1 : ¬ b1 % 256 < 128) (h2 : ¬ b2 % 256 < 128) (h3 : ¬ b3 % 256 < 128)
    (h4 : ¬ b4 % 256 < 128) (h5 : ¬ b5 % 256 < 128) :
    accept_data P aes inflate m (b1 :: b2 :: b3 :: b4 :: b5 :: rest) =
      ({ m with incoming_compressed := b1 :: b2 :: b3 :: b4 :: b5 :: rest }, .ok) := by
  have h := accept_data_waits P aes inflate m (b1 :: b2 :: b3 :: b4 :: b5 :: rest) henc
    (Or.inl ⟨VErr.malformed, by
      rw [hbuf, List.nil_append]
      exact read_var_int_malformed5 rest h1 h2 h3 h4 h5⟩)
  rw [h, hbuf, List.nil_append]

/-- Witness for C6's amended behaviour at the concrete five
continuation bytes. -/
theorem c6_malformed_varint_treated_as_incomplete_witness :
    accept_data specProto idAes idInflate
      (ConnectionIOManager.new PacketDirection.Serverbound : ConnectionIOManager MPkt)
      [128, 128, 128, 128, 128] =
      ({ (ConnectionIOManager.new PacketDirection.Serverbound : ConnectionIOManager MPkt)
        with incoming_compressed := [128, 128, 128, 128, 128] }, .ok) :=
  c6_malformed_varint_treated_as_incomplete specProto idAes idInflate _
    128 128 128 128 128 [] rfl rfl (by decide) (by decide) (by decide) (by decide)
    (by decide)

/-- C6 counterexample: on the 5-continuation-byte frame-length VarInt
the claim demands `FatalError::MalformedFrame`, but `accept_data`
returns `Ok` (the reader's `Malformed` failure is even reached, as the
last conjunct shows) and keeps the bytes buffered. -/
theorem c6_counterexample_no_error :
    (accept_data specProto idAes idInflate
      (ConnectionIOManager.new PacketDirection.Serverbound : ConnectionIOManager MPkt)
      [128, 128, 128, 128, 128]).2 = AStatus.ok ∧
    (accept_data specProto idAes idInflate
      (ConnectionIOManager.new PacketDirection.Serverbound : ConnectionIOManager MPkt)
      [128, 128, 128, 128, 128]).1.incoming_compressed = [128, 128, 128, 128, 128] ∧
    read_var_int [128, 128, 128, 128, 128] = .error VErr.malformed := by
  refine ⟨by decide, by decide, rfl⟩

/-- C8 counterexample: the public `set_stage` writes any stage
unconditionally (line 58–60), so a single `set_stage Play` on a fresh
framer takes the disallowed transition Handshake → Play; the claimed
invariant over "every sequence of operations" fails. -/
theorem c8_counterexample_set_stage :
    ¬ stage_chain specProto idAes idInflate idDeflate
      (ConnectionIOManager.new PacketDirection.Serverbound : ConnectionIOManager MPkt)
      [Op.set_stage PacketStage.Play] := by
  intro h
  obtain ⟨h1, -⟩ := h
  unfold allowed_stage_step at h1
  rcases h1 with h1 | ⟨-, h1 | h1⟩ | ⟨h1, -⟩ <;> exact absurd h1 (by decide)

/-- C8 (amended): the stage only ever changes through `set_stage` (to
the requested stage, unconstrained), through `accept_data` (only to
`Status` or `Login`, the Handshake transitions), or through
`serialize_packet` of a LoginSuccess (to `Play`, from any stage);
`enable_encryption` and `enable_compression` never change it. -/
theorem c8_stage_changes_characterized {Pk Ty : Type} (P : Proto Pk Ty)
    (aes : List Nat → List Nat → Nat) (inflate : List Nat → Option (List Nat × Nat))
    (deflate : List Nat → List Nat) (m : ConnectionIOManager Pk) (op : Op Pk) :
    match op with
    | .set_stage s => (apply_op P aes inflate deflate m op).stage = s
    | .accept _ => (apply_op P aes inflate deflate m op).stage = m.stage ∨
        (apply_op P aes inflate deflate m op).stage = PacketStage.Status ∨
        (apply_op P aes inflate deflate m op).stage = PacketStage.Login
    | .serialize p => (apply_op P aes inflate deflate m op).stage = m.stage ∨
        (P.isLoginSuccess (P.ty p) = true ∧
          (apply_op P aes inflate deflate m op).stage = PacketStage.Play)
    | .enable_encryption _ => (apply_op P aes inflate deflate m op).stage = m.stage
    | .enable_compression _ => (apply_op P aes inflate deflate m op).stage = m.stage := by
  cases op with
  | set_stage s => rfl
  | accept data => exact accept_data_stage P aes inflate m data
  | serialize p =>
    have hred : apply_op P aes inflate deflate m (Op.serialize p) =
        (match serialize_packet P aes deflate m p with
          | some r => r.1
          | none => m) := rfl
    rw [hred]
    cases hs : serialize_packet P aes deflate m p with
    | none => exact Or.inl rfl
    | some r =>
      have hst := serialize_packet_stage P aes deflate m p r (by rw [hs]; rfl)
      by_cases hls : P.isLoginSuccess (P.ty p) = true
      · refine Or.inr ⟨hls, ?_⟩
        show r.1.stage = _
        rw [hst, if_pos hls]
      · refine Or.inl ?_
        show r.1.stage = _
        rw [hst, if_neg hls]
  | enable_encryption key => rfl
  | enable_compression t => rfl

/-- C9: whatever `accept_data` returns — in particular on an error —
packets decoded in earlier iterations of the same call remain queued
and are exactly what a subsequent `take_pending_packets` returns, and
the residual buffer is a suffix of the old buffer plus the new chunk:
input consumed before the error is never restored. -/
theorem c9_error_not_atomic {Pk Ty : Type} (P : Proto Pk Ty)
    (aes : List Nat → List Nat → Nat) (inflate : List Nat → Option (List Nat × Nat))
    (m : ConnectionIOManager Pk) (data : List Nat)
    (henc : m.encryption_enabled = false) :
    m.pending_received_packets <+:
      (accept_data P aes inflate m data).1.pending_received_packets ∧
    (accept_data P aes inflate m data).1.incoming_compressed <:+
      m.incoming_compressed ++ data ∧
    take_pending_packets (accept_data P aes inflate m data).1 =
      ((accept_data P aes inflate m data).1.pending_received_packets,
        { (accept_data P aes inflate m data).1 with pending_received_packets := [] }) := by
  obtain ⟨h1, h2⟩ := accept_data_state P aes inflate m data henc
  exact ⟨h2, h1, rfl⟩

/-- Witness for C9 on a concrete erroring call: frame `[1, 0]` decodes
a `blob 0` packet, then frame `[1, 11]` hits a registry miss and
`accept_data` returns `Err` — with the first packet still pending and
all four input bytes consumed. -/
theorem c9_error_not_atomic_witness :
    (playMgr.pending_received_packets <+:
      (accept_data specProto idAes idInflate playMgr [1, 0, 1, 11]).1.pending_received_packets ∧
    (accept_data specProto idAes idInflate playMgr
      [1, 0, 1, 11]).1.incoming_compressed <:+
        playMgr.incoming_compressed ++ [1, 0, 1, 11] ∧
    take_pending_packets (accept_data specProto idAes idInflate playMgr [1, 0, 1, 11]).1 =
      ((accept_data specProto idAes idInflate playMgr
          [1, 0, 1, 11]).1.pending_received_packets,
        { (accept_data specProto idAes idInflate playMgr [1, 0, 1, 11]).1 with
            pending_received_packets := [] })) ∧
    (accept_data specProto idAes idInflate playMgr [1, 0, 1, 11]).2 = AStatus.err ∧
    (accept_data specProto idAes idInflate playMgr
      [1, 0, 1, 11]).1.pending_received_packets = [MPkt.blob 0 []] ∧
    (accept_data specProto idAes idInflate playMgr
      [1, 0, 1, 11]).1.incoming_compressed = [] :=
  ⟨c9_error_not_atomic specProto idAes idInflate playMgr [1, 0, 1, 11] rfl,
    by decide, by decide, by decide⟩

/-- C1: with encryption and compression disabled on both sides, for any
packet whose type is registered for the mirror framer's stage and
direction and whose payload codec round-trips, feeding the whole buffer
emitted by `serialize_packet` to `accept_data` on the mirror framer
succeeds, queues exactly that one packet, and leaves both residual
buffers empty. -/
theorem c1_roundtrip {Pk Ty : Type} (P : Proto Pk Ty)
    (aes : List Nat → List Nat → Nat) (deflate : List Nat → List Nat)
    (inflate : List Nat → Option (List Nat × Nat))
    (A B : ConnectionIOManager Pk) (p : Pk)
    (hAenc : A.encryption_enabled = false) (hAcomp : A.compression_enabled = false)
    (hBenc : B.encryption_enabled = false) (hBcomp : B.compression_enabled = false)
    (hBbuf : B.incoming_compressed = []) (hBunc : B.incoming_uncompressed = [])
    (hBpend : B.pending_received_packets = [])
    (hid : P.get_id (P.ty p) < 4294967296)
    (hlook : P.get_from_id (P.get_id (P.ty p)) B.direction B.stage = some (P.ty p))
    (hparse : P.read_from (P.get_implementation (P.ty p)) (P.write_to p) = some p)
    (hsize : (P.write_to p).length + 10 < 2147483648) :
    ∃ A',
      serialize_packet P aes deflate A p =
        some (A', write_var_int (i32ofNat (serialize_body P p).length) ++
          serialize_body P p) ∧
      accept_data P aes inflate B
        (write_var_int (i32ofNat (serialize_body P p).length) ++ serialize_body P p) =
        ({ B with
            incoming_compressed := []
            stage := stage_after P p B.stage
            pending_received_packets := [p] }, .ok) ∧
      (accept_data P aes inflate B
        (write_var_int (i32ofNat (serialize_body P p).length) ++
          serialize_body P p)).1.incoming_uncompressed = [] ∧
      (take_pending_packets (accept_data P aes inflate B
        (write_var_int (i32ofNat (serialize_body P p).length) ++
          serialize_body P p)).1).1 = [p] := by
  have hser := serialize_packet_spec P aes deflate A p hAenc
  have henv : serialize_envelope P deflate A p = serialize_body P p := by
    unfold serialize_envelope
    rw [if_neg (by simp [hAcomp])]
  rw [henv] at hser
  have hvr := i32ofNat_range (P.get_id (P.ty p))
  have hkey : toU32 (i32ofNat (P.get_id (P.ty p))) = P.get_id (P.ty p) :=
    toU32_i32ofNat hid
  have hblen : (serialize_body P p).length < 2147483648 := by
    unfold serialize_body
    have := write_var_int_length_le (i32ofNat (P.get_id (P.ty p)))
    simp only [List.length_append]
    omega
  have hfr : FrameOk P inflate B.direction false B.stage
      (write_var_int (i32ofNat (serialize_body P p).length) ++ serialize_body P p) p
      (stage_after P p B.stage) :=
    @FrameOk.uncompressed Pk Ty P inflate B.direction B.stage
      (i32ofNat (P.get_id (P.ty p))) (P.write_to p) (P.ty p) p
      hvr.1 hvr.2 hblen (by rw [hkey]; exact hlook) hparse
  have HS : Frames P inflate B.direction false B.stage
      (write_var_int (i32ofNat (serialize_body P p).length) ++ serialize_body P p)
      [p] (stage_after P p B.stage) := by
    have h := Frames.cons hfr (Frames.nil (stage_after P p B.stage))
    rwa [List.append_nil] at h
  have hacc := accept_data_frames P aes inflate HS B hBenc hBcomp rfl rfl hBbuf hBunc
    (by
      simp only [List.length_append]
      have h1 := write_var_int_length_le (i32ofNat (serialize_body P p).length)
      have h2 : (serialize_body P p).length ≤ 5 + (P.write_to p).length := by
        unfold serialize_body
        simp only [List.length_append]
        have := write_var_int_length_le (i32ofNat (P.get_id (P.ty p)))
        omega
      omega)
  rw [hBpend] at hacc
  refine ⟨_, hser, ?_, ?_, ?_⟩
  · rw [hacc]
    rw [show ([] : List Pk) ++ [p] = [p] from List.nil_append _]
  · rw [hacc]
    exact hBunc
  · rw [hacc]
    rfl

/-- Witness for C1: a StatusRequest packet (empty payload, id 0)
serialized by a fresh clientbound framer and decoded by a fresh mirror
framer moved to the Status stage. -/
theorem c1_roundtrip_witness :
    ∃ A',
      serialize_packet specProto idAes idDeflate
        (ConnectionIOManager.new PacketDirection.Clientbound : ConnectionIOManager MPkt)
        MPkt.statusRequest =
        some (A', write_var_int (i32ofNat (serialize_body specProto
            MPkt.statusRequest).length) ++ serialize_body specProto MPkt.statusRequest) ∧
      accept_data specProto idAes idInflate
        ((ConnectionIOManager.new PacketDirection.Serverbound :
          ConnectionIOManager MPkt).set_stage PacketStage.Status)
        (write_var_int (i32ofNat (serialize_body specProto
          MPkt.statusRequest).length) ++ serialize_body specProto MPkt.statusRequest) =
        ({ ((ConnectionIOManager.new PacketDirection.Serverbound :
            ConnectionIOManager MPkt).set_stage PacketStage.Status) with
            incoming_compressed := []
            stage := stage_after specProto MPkt.statusRequest PacketStage.Status
            pending_received_packets := [MPkt.statusRequest] }, .ok) ∧
      (accept_data specProto idAes idInflate
        ((ConnectionIOManager.new PacketDirection.Serverbound :
          ConnectionIOManager MPkt).set_stage PacketStage.Status)
        (write_var_int (i32ofNat (serialize_body specProto
          MPkt.statusRequest).length) ++
            serialize_body specProto MPkt.statusRequest)).1.incoming_uncompressed = [] ∧
      (take_pending_packets (accept_data specProto idAes idInflate
        ((ConnectionIOManager.new PacketDirection.Serverbound :
          ConnectionIOManager MPkt).set_stage PacketStage.Status)
        (write_var_int (i32ofNat (serialize_body specProto
          MPkt.statusRequest).length) ++
            serialize_body specProto MPkt.statusRequest)).1).1 = [MPkt.statusRequest] :=
  c1_roundtrip specProto idAes idDeflate idInflate _ _ MPkt.statusRequest
    rfl rfl rfl rfl rfl rfl rfl (by decide) (by decide) (by decide) (by decide)

/-- C2: partial-read tolerance: for a framer with encryption disabled and
empty internal buffers, feeding any sequence of well-formed frames split
into arbitrary chunks via repeated `accept_data` calls yields exactly the
same final state as feeding the concatenated byte stream in one call:
every call in between returns `Ok`, and at the end the packet queue holds
the full packet sequence and the internal compressed buffer is empty. -/
theorem c2_chunked_eq_whole {Pk Ty : Type} (P : Proto Pk Ty)
    (aes : List Nat → List Nat → Nat) (inflate : List Nat → Option (List Nat × Nat))
    (chunks : List (List Nat)) {dir : PacketDirection} {comp : Bool}
    {st st₁ : PacketStage} {R : List Nat} {pkts : List Pk}
    (HS : Frames P inflate dir comp st R pkts st₁)
    (m : ConnectionIOManager Pk)
    (henc : m.encryption_enabled = false) (hcomp : m.compression_enabled = comp)
    (hdir : m.direction = dir) (hst : m.stage = st)
    (hbuf : m.incoming_compressed = []) (hunc : m.incoming_uncompressed = [])
    (hflat : chunks.flatten = R) (hbound : R.length < 2147483648) :
    feed_all P aes inflate m chunks = accept_data P aes inflate m R ∧
    feed_all P aes inflate m chunks =
      ({ m with
          incoming_compressed := []
          stage := st₁
          pending_received_packets := m.pending_received_packets ++ pkts }, .ok) := by
  have h2 := feed_all_frames P aes inflate chunks HS m [] henc hcomp hdir hst hbuf hunc
    (by rw [List.nil_append]; exact hflat) hbound (Or.inl rfl)
  have h1 := accept_data_frames P aes inflate HS m henc hcomp hdir hst hbuf hunc hbound
  exact ⟨by rw [h1, h2], h2⟩

/-- Witness for C2: the one-frame stream `[1, 0]` (a StatusRequest) fed
as the two chunks `[1]` then `[0]` to a fresh serverbound framer in the
Status stage, compared against feeding `[1, 0]` whole. -/
theorem c2_chunked_eq_whole_witness :
    feed_all specProto idAes idInflate
        ((ConnectionIOManager.new PacketDirection.Serverbound :
          ConnectionIOManager MPkt).set_stage PacketStage.Status) [[1], [0]] =
      accept_data specProto idAes idInflate
        ((ConnectionIOManager.new PacketDirection.Serverbound :
          ConnectionIOManager MPkt).set_stage PacketStage.Status) [1, 0] ∧
    feed_all specProto idAes idInflate
        ((ConnectionIOManager.new PacketDirection.Serverbound :
          ConnectionIOManager MPkt).set_stage PacketStage.Status) [[1], [0]] =
      ({ ((ConnectionIOManager.new PacketDirection.Serverbound :
          ConnectionIOManager MPkt).set_stage PacketStage.Status) with
          incoming_compressed := []
          stage := PacketStage.Status
          pending_received_packets := [MPkt.statusRequest] }, .ok) := by
  have hfr : FrameOk specProto idInflate PacketDirection.Serverbound false
      PacketStage.Status [1, 0] MPkt.statusRequest PacketStage.Status :=
    @FrameOk.uncompressed MPkt MTy specProto idInflate PacketDirection.Serverbound
      PacketStage.Status 0 [] MTy.statusRequest MPkt.statusRequest
      (by decide) (by decide) (by decide) (by decide) rfl
  have HS : Frames specProto idInflate PacketDirection.Serverbound false
      PacketStage.Status [1, 0] [MPkt.statusRequest] PacketStage.Status := by
    have h := Frames.cons hfr (Frames.nil PacketStage.Status)
    rwa [List.append_nil] at h
  exact c2_chunked_eq_whole specProto idAes idInflate [[1], [0]] HS
    ((ConnectionIOManager.new PacketDirection.Serverbound :
      ConnectionIOManager MPkt).set_stage PacketStage.Status)
    rfl rfl rfl rfl rfl rfl (by decide) (by decide)

/-- C7: decoding a Handshake packet whose `next_state` VarInt is 1 moves
the framer to the Status stage; 2 moves it to Login; any other value
makes `accept_data` return the fatal error; and `serialize_packet`
returns a framer whose stage is Play whenever the serialized packet is a
LoginSuccess. -/
theorem c7_handshake_next_state_and_login_success
    (m : ConnectionIOManager MPkt) (ns : Int)
    (henc : m.encryption_enabled = false) (hcomp : m.compression_enabled = false)
    (hbuf : m.incoming_compressed = []) (hunc : m.incoming_uncompressed = [])
    (hdir : m.direction = PacketDirection.Serverbound)
    (hst : m.stage = PacketStage.Handshake)
    (hns1 : -2147483648 ≤ ns) (hns2 : ns < 2147483648) :
    (ns = 1 →
      accept_data specProto idAes idInflate m (handshake_frame ns) =
        ({ m with
            incoming_compressed := []
            stage := PacketStage.Status
            pending_received_packets := m.pending_received_packets ++
              [MPkt.handshake ⟨754, lhAddr, 25565, HandshakeState.Status⟩] }, .ok)) ∧
    (ns = 2 →
      accept_data specProto idAes idInflate m (handshake_frame ns) =
        ({ m with
            incoming_compressed := []
            stage := PacketStage.Login
            pending_received_packets := m.pending_received_packets ++
              [MPkt.handshake ⟨754, lhAddr, 25565, HandshakeState.Login⟩] }, .ok)) ∧
    (ns ≠ 1 → ns ≠ 2 →
      (accept_data specProto idAes idInflate m (handshake_frame ns)).2 = .err) ∧
    (∀ {Pk Ty : Type} (P : Proto Pk Ty) (aes : List Nat → List Nat → Nat)
      (deflate : List Nat → List Nat) (m' : ConnectionIOManager Pk) (p : Pk)
      (r : ConnectionIOManager Pk × List Nat),
      P.isLoginSuccess (P.ty p) = true →
      serialize_packet P aes deflate m' p = some r →
      r.1.stage = PacketStage.Play) := by
  refine ⟨?_, ?_, ?_, ?_⟩
  · intro h1
    subst h1
    have hfr : FrameOk specProto idInflate PacketDirection.Serverbound false
        PacketStage.Handshake (handshake_frame 1)
        (MPkt.handshake ⟨754, lhAddr, 25565, HandshakeState.Status⟩)
        PacketStage.Status :=
      @FrameOk.uncompressed MPkt MTy specProto idInflate PacketDirection.Serverbound
        PacketStage.Handshake 0 (handshake_payload 754 lhAddr 25565 1)
        MTy.handshake (MPkt.handshake ⟨754, lhAddr, 25565, HandshakeState.Status⟩)
        (by decide) (by decide) (by decide) (by decide) rfl
    have HS : Frames specProto idInflate PacketDirection.Serverbound false
        PacketStage.Handshake (handshake_frame 1)
        [MPkt.handshake ⟨754, lhAddr, 25565, HandshakeState.Status⟩]
        PacketStage.Status := by
      have h := Frames.cons hfr (Frames.nil PacketStage.Status)
      rwa [List.append_nil] at h
    exact accept_data_frames specProto idAes idInflate HS m
      henc hcomp hdir hst hbuf hunc (by decide)
  · intro h2
    subst h2
    have hfr : FrameOk specProto idInflate PacketDirection.Serverbound false
        PacketStage.Handshake (handshake_frame 2)
        (MPkt.handshake ⟨754, lhAddr, 25565, HandshakeState.Login⟩)
        PacketStage.Login :=
      @FrameOk.uncompressed MPkt MTy specProto idInflate PacketDirection.Serverbound
        PacketStage.Handshake 0 (handshake_payload 754 lhAddr 25565 2)
        MTy.handshake (MPkt.handshake ⟨754, lhAddr, 25565, HandshakeState.Login⟩)
        (by decide) (by decide) (by decide) (by decide) rfl
    have HS : Frames specProto idInflate PacketDirection.Serverbound false
        PacketStage.Handshake (handshake_frame 2)
        [MPkt.handshake ⟨754, lhAddr, 25565, HandshakeState.Login⟩]
        PacketStage.Login := by
      have h := Frames.cons hfr (Frames.nil PacketStage.Login)
      rwa [List.append_nil] at h
    exact accept_data_frames specProto idAes idInflate HS m
      henc hcomp hdir hst hbuf hunc (by decide)
  · intro h1 h2
    have hpl : (write_var_int 0 ++ handshake_payload 754 lhAddr 25565 ns).length =
        15 + (write_var_int ns).length := by
      unfold handshake_payload
      simp only [List.length_append, List.length_cons, List.length_nil]
      have e0 : (write_var_int 0).length = 1 := by decide
      have e754 : (write_var_int 754).length = 2 := by decide
      have eal : (write_var_int (i32ofNat lhAddr.length)).length = 1 := by decide
      have elh : lhAddr.length = 9 := by decide
      omega
    have hlen : (write_var_int 0 ++ handshake_payload 754 lhAddr 25565 ns).length <
        2147483648 := by
      rw [hpl]
      have := write_var_int_length_le ns
      omega
    have hlook : specProto.get_from_id (toU32 0) m.direction m.stage =
        some MTy.handshake := by
      rw [hdir, hst]
      decide
    have hparse : specProto.read_from (specProto.get_implementation MTy.handshake)
        (handshake_payload 754 lhAddr 25565 ns) = none := by
      show (read_handshake (handshake_payload 754 lhAddr 25565 ns)).map MPkt.handshake =
        none
      rw [read_handshake_payload 754 lhAddr 25565 ns (by decide) (by decide) (by decide)
        (by decide) hns1 hns2, if_neg h1, if_neg h2]
      rfl
    exact accept_data_parse_err specProto idAes idInflate m henc hcomp hbuf hunc
      (by decide) (by decide) hlen hlook hparse
  · intro Pk Ty P aes deflate m' p r hls hser
    have h := serialize_packet_stage P aes deflate m' p r (Option.mem_def.mpr hser)
    rw [if_pos hls] at h
    exact h

/-- Witness for C7: a concrete Handshake frame with next_state 1 moves a
fresh serverbound framer to Status; next_state 3 is rejected; and
serializing a LoginSuccess from a fresh clientbound framer yields a
framer in the Play stage. -/
theorem c7_handshake_next_state_witness :
    accept_data specProto idAes idInflate
        (ConnectionIOManager.new PacketDirection.Serverbound : ConnectionIOManager MPkt)
        (handshake_frame 1) =
      ({ (ConnectionIOManager.new PacketDirection.Serverbound :
          ConnectionIOManager MPkt) with
          incoming_compressed := []
          stage := PacketStage.Status
          pending_received_packets :=
            [MPkt.handshake ⟨754, lhAddr, 25565, HandshakeState.Status⟩] }, .ok) ∧
    (accept_data specProto idAes idInflate
        (ConnectionIOManager.new PacketDirection.Serverbound : ConnectionIOManager MPkt)
        (handshake_frame 3)).2 = .err ∧
    ∃ r, serialize_packet specProto idAes idDeflate
        (ConnectionIOManager.new PacketDirection.Clientbound : ConnectionIOManager MPkt)
        MPkt.loginSuccess = some r ∧ r.1.stage = PacketStage.Play := by
  refine ⟨?_, ?_, ?_⟩
  · exact (c7_handshake_next_state_and_login_success
      (ConnectionIOManager.new PacketDirection.Serverbound) 1
      rfl rfl rfl rfl rfl rfl (by decide) (by decide)).1 rfl
  · exact (c7_handshake_next_state_and_login_success
      (ConnectionIOManager.new PacketDirection.Serverbound) 3
      rfl rfl rfl rfl rfl rfl (by decide) (by decide)).2.2.1 (by decide) (by decide)
  · exact ⟨_, rfl, (c7_handshake_next_state_and_login_success
      (ConnectionIOManager.new PacketDirection.Serverbound) 1
      rfl rfl rfl rfl rfl rfl (by decide) (by decide)).2.2.2 specProto idAes idDeflate
      (ConnectionIOManager.new PacketDirection.Clientbound) MPkt.loginSuccess
      ({ ConnectionIOManager.new PacketDirection.Clientbound with
          stage := PacketStage.Play }, [1, 2]) rfl rfl⟩

end Feather
